import Mathlib

/-!
Verification of the OEL_OS dynamic-partition memory manager.

The definitions below are a shallow embedding of the C sources:
 * `src/test.c`  — the core simulator: best-fit allocation over a linked
   list of memory blocks, deallocation with coalescing, a waiting queue
   retried on every tick, and process-completion countdown.
 * `src/final.c` — a simpler variant keeping an (unordered) free list;
   its `merge_free_blocks` is embedded separately.
 * `src/test2.c` — the paging variant: a frame table, page tables, and a
   dual placement strategy (dynamic partitioning below a size ceiling,
   paging above it).

C linked lists become Lean `List`s; in-place mutation becomes explicit
state passing; C `int` fields that hold `-1` sentinels are `Int`, sizes
and addresses (always non-negative in the program) are `Nat`.
-/

namespace OelOS

/-- `struct MemoryBlock` from src/test.c (also src/test2.c): one node of
the memory block list.  `process_id` is `-1` for free blocks. -/
structure MemoryBlock where
  start_address : Nat
  size : Nat
  is_free : Bool
  process_id : Int
  arrival_time : Int
  allocation_time : Int
deriving DecidableEq

/-- `struct Process` from src/test.c. -/
structure Process where
  pid : Int
  size : Nat
  arrival_time : Int
  allocated : Bool
  allocation_time : Int
  memory_address : Int
  waiting_time : Int
  execution_time : Int
  remaining_time : Int
  completed : Bool
deriving DecidableEq

/-- `struct SimulationStats` from src/test.c (the fields the core
mutates; the C `double` running average is modelled exactly over `ℚ`). -/
structure SimulationStats where
  successful_allocations : Nat
  failed_allocations : Nat
  completed_processes : Nat
  max_waiting_time : Int
  memory_utilization : ℚ
deriving DecidableEq

/-- The global mutable state of src/test.c: the block list headed by
`memory_head`, the `processes[]` registry, `waiting_queue[]` (C stores
pointers into `processes[]`; we store the registry index), the
`allocated_processes[]` pid array, `current_time`, `total_memory_size`
and `stats`. -/
structure SimState where
  blocks : List MemoryBlock
  procs : List Process
  waiting : List Nat
  allocated : List Int
  current_time : Int
  total_memory_size : Nat
  stats : SimulationStats
deriving DecidableEq

/-- The scan loop of `allocate_memory` (src/test.c lines 182-191): walk
the block list keeping the smallest free block of size at least `req`;
a strictly smaller block replaces the current best, so ties keep the
first block encountered.  `i` is the list position of the head of `bs`,
`best` the best `(position, block)` seen so far. -/
def bestFitBody (req i : Nat) (b : MemoryBlock) (best : Option (Nat × MemoryBlock)) :
    Option (Nat × MemoryBlock) :=
  if b.is_free && req ≤ b.size then
    match best with
    | none => some (i, b)
    | some (j, bb) => if b.size < bb.size then some (i, b) else some (j, bb)
  else best

def bestFitAux (req : Nat) : List MemoryBlock → Nat → Option (Nat × MemoryBlock) →
    Option (Nat × MemoryBlock)
  | [], _, best => best
  | b :: rest, i, best => bestFitAux req rest (i + 1) (bestFitBody req i b best)

/-- The block-list effect of `allocate_memory` (src/test.c lines
194-228, identical in src/test2.c lines 237-266): find the best fit;
consume it whole when its size is at most `sz + 3`, otherwise split it,
the low end `[start, start+sz)` allocated and the remainder left free.
Returns the new list and the start address handed to the process. -/
def allocBlocks (blocks : List MemoryBlock) (sz : Nat) (pid arr now : Int) :
    Option (List MemoryBlock × Nat) :=
  match bestFitAux sz blocks 0 none with
  | none => none
  | some (i, b) =>
      if b.size ≤ sz + 3 then
        some (blocks.set i
          { b with is_free := false, process_id := pid,
                   arrival_time := arr, allocation_time := now },
          b.start_address)
      else
        some (blocks.take i ++
          [{ start_address := b.start_address, size := sz, is_free := false,
             process_id := pid, arrival_time := arr, allocation_time := now },
           { start_address := b.start_address + sz, size := b.size - sz,
             is_free := true, process_id := -1, arrival_time := -1,
             allocation_time := -1 }] ++ blocks.drop (i + 1),
          b.start_address)

/-- `get_process_by_pid` (src/test.c lines 165-172): first registry
entry with the given pid, together with its index. -/
def getProcAux (pid : Int) : List Process → Nat → Option (Nat × Process)
  | [], _ => none
  | p :: rest, j => if p.pid == pid then some (j, p) else getProcAux pid rest (j + 1)

def get_process_by_pid (procs : List Process) (pid : Int) : Option (Nat × Process) :=
  getProcAux pid procs 0

/-- `allocate_memory` (src/test.c lines 175-247) on the process at
registry index `idx`: best-fit placement, then the process record is
updated (allocated, allocation/waiting times, remaining time reset to
the execution time) and its pid appended to `allocated_processes`. -/
def allocate_memory (st : SimState) (idx : Nat) : Bool × SimState :=
  match st.procs[idx]? with
  | none => (false, st)
  | some p =>
      match allocBlocks st.blocks p.size p.pid p.arrival_time st.current_time with
      | none =>
          (false, { st with stats :=
            { st.stats with failed_allocations := st.stats.failed_allocations + 1 } })
      | some (blocks', addr) =>
          let wt := st.current_time - p.arrival_time
          let p' := { p with allocated := true, allocation_time := st.current_time,
                             memory_address := (addr : Int),
                             remaining_time := p.execution_time, waiting_time := wt }
          (true, { st with
            blocks := blocks',
            procs := st.procs.set idx p',
            allocated := st.allocated ++ [p.pid],
            stats := { st.stats with
              successful_allocations := st.stats.successful_allocations + 1,
              max_waiting_time :=
                if st.stats.max_waiting_time < wt then wt else st.stats.max_waiting_time } })

/-- The search loop of `deallocate_memory` (src/test.c lines 255-265):
free the first non-free block carrying `pid`; `none` when no block
does. -/
def freeFirstBlock (pid : Int) : List MemoryBlock → Option (List MemoryBlock)
  | [] => none
  | b :: rest =>
      if !b.is_free && b.process_id == pid then
        some ({ b with is_free := true, process_id := -1, allocation_time := -1 } :: rest)
      else
        (freeFirstBlock pid rest).map (b :: ·)

/-- Removal from `allocated_processes[]` by shifting (src/test.c lines
269-278): drop the first occurrence. -/
def removeFirst (pid : Int) : List Int → List Int
  | [] => []
  | x :: rest => if x == pid then rest else x :: removeFirst pid rest

/-- The loop body of `merge_free_blocks` (src/test.c lines 300-312)
with `b` playing `current`: when `current` and `current->next` are both
free the next node is absorbed and `current` stays put; otherwise
`current` advances. -/
def mergeAux (b : MemoryBlock) : List MemoryBlock → List MemoryBlock
  | [] => [b]
  | b2 :: rest =>
      if b.is_free && b2.is_free then
        mergeAux { b with size := b.size + b2.size } rest
      else
        b :: mergeAux b2 rest

/-- `merge_free_blocks` (src/test.c lines 297-313). -/
def merge_free_blocks : List MemoryBlock → List MemoryBlock
  | [] => []
  | b :: rest => mergeAux b rest

/-- `deallocate_memory` (src/test.c lines 250-294): free the block of
`pid` (no state change when absent), drop `pid` from
`allocated_processes`, mark the process completed when its remaining
time is already `≤ 0`, then coalesce. -/
def deallocate_memory (st : SimState) (pid : Int) : SimState :=
  match freeFirstBlock pid st.blocks with
  | none => st
  | some blocks1 =>
      match get_process_by_pid st.procs pid with
      | some (j, p) =>
          if !p.completed && p.remaining_time ≤ 0 then
            { st with blocks := merge_free_blocks blocks1,
                      allocated := removeFirst pid st.allocated,
                      procs := st.procs.set j { p with completed := true },
                      stats := { st.stats with
                        completed_processes := st.stats.completed_processes + 1 } }
          else
            { st with blocks := merge_free_blocks blocks1,
                      allocated := removeFirst pid st.allocated }
      | none =>
          { st with blocks := merge_free_blocks blocks1,
                    allocated := removeFirst pid st.allocated }

/-- The loop of `check_waiting_processes` (src/test.c lines 324-337):
`i` is the loop index over the queue `q`, `n` the number allocated so
far.  A successful allocation removes position `i` and re-runs the body
at the same `i` (the C code does `i--` then `i++`).  The loop performs
at most `q.length` iterations, so fuel `q.length + 1` is never
exhausted. -/
def checkWaitingAux : Nat → SimState → List Nat → Nat → Nat → SimState × List Nat × Nat
  | 0, st, q, _, n => (st, q, n)
  | fuel + 1, st, q, i, n =>
      if h : i < q.length then
        if (allocate_memory st (q.get ⟨i, h⟩)).1 then
          checkWaitingAux fuel (allocate_memory st (q.get ⟨i, h⟩)).2
            (q.take i ++ q.drop (i + 1)) i (n + 1)
        else
          checkWaitingAux fuel (allocate_memory st (q.get ⟨i, h⟩)).2 q (i + 1) n
      else (st, q, n)

/-- `check_waiting_processes` (src/test.c lines 316-345). -/
def check_waiting_processes (st : SimState) : SimState :=
  if st.waiting.length == 0 then st
  else
    let r := checkWaitingAux (st.waiting.length + 1) st st.waiting 0 0
    { r.1 with waiting := r.2.1 }

/-- The loop of `check_process_completion` (src/test.c lines 349-369):
walk `allocated_processes`, decrement the remaining time of each
not-completed process, and deallocate those reaching `≤ 0` without
advancing the index (the array shifts under the deallocation).  Each
iteration either advances `i` or shortens the array, so fuel
`st.allocated.length + 1` is never exhausted on states where every
allocated pid owns a block. -/
def checkCompletionAux : Nat → SimState → Nat → SimState
  | 0, st, _ => st
  | fuel + 1, st, i =>
      if h : i < st.allocated.length then
        match get_process_by_pid st.procs (st.allocated.get ⟨i, h⟩) with
        | some (j, p) =>
            if !p.completed then
              if p.remaining_time - 1 ≤ 0 then
                checkCompletionAux fuel
                  (deallocate_memory
                    { st with
                      procs := st.procs.set j { p with remaining_time := p.remaining_time - 1 } }
                    (st.allocated.get ⟨i, h⟩)) i
              else
                checkCompletionAux fuel
                  { st with
                    procs := st.procs.set j { p with remaining_time := p.remaining_time - 1 } }
                  (i + 1)
            else checkCompletionAux fuel st (i + 1)
        | none => checkCompletionAux fuel st (i + 1)
      else st

/-- `check_process_completion` (src/test.c lines 348-370). -/
def check_process_completion (st : SimState) : SimState :=
  checkCompletionAux (st.allocated.length + 1) st 0

/-- `calculate_memory_utilization` (src/test.c lines 373-391): fresh
used/total ratio folded into a running average (`double` in C, exact
`ℚ` here). -/
def calculate_memory_utilization (st : SimState) : SimState :=
  let total_used : Nat := (st.blocks.filter (fun b => !b.is_free)).foldl
    (fun a b => a + b.size) 0
  let u : ℚ := (total_used : ℚ) / (st.total_memory_size : ℚ)
  let mu := if st.stats.memory_utilization = 0 then u
            else (st.stats.memory_utilization + u) / 2
  { st with stats := { st.stats with memory_utilization := mu } }

/-- `simulate_time_step` (src/test.c lines 394-399): advance the clock,
then completion countdown, then the waiting-queue retry, then the
statistics sample. -/
def simulate_time_step (st : SimState) : SimState :=
  calculate_memory_utilization
    (check_waiting_processes
      (check_process_completion { st with current_time := st.current_time + 1 }))

/-- `add_process` (src/test.c lines 402-420) for the process at
registry index `idx`: not-yet-arrived processes are refused; otherwise
try to allocate, enqueueing to the waiting queue on failure. -/
def add_process (st : SimState) (idx : Nat) : Bool × SimState :=
  match st.procs[idx]? with
  | none => (false, st)
  | some p =>
      if st.current_time < p.arrival_time then (false, st)
      else if (allocate_memory st idx).1 then (true, (allocate_memory st idx).2)
      else (false, { (allocate_memory st idx).2 with
                     waiting := (allocate_memory st idx).2.waiting ++ [idx] })

/-- `initialize_memory` (src/test.c lines 80-97) together with a loaded
process registry: a single free block covering `[0, size)`. -/
def init_memory (size : Nat) (procs : List Process) : SimState :=
  { blocks := [{ start_address := 0, size := size, is_free := true,
                 process_id := -1, arrival_time := -1, allocation_time := -1 }],
    procs := procs, waiting := [], allocated := [], current_time := 0,
    total_memory_size := size,
    stats := { successful_allocations := 0, failed_allocations := 0,
               completed_processes := 0, max_waiting_time := 0,
               memory_utilization := 0 } }

/-- The observable operations of the core driver loop: admitting a
process (`add_process`), an explicit deallocation, and a clock tick. -/
inductive Op where
  | alloc (idx : Nat)
  | dealloc (pid : Int)
  | tick
deriving DecidableEq

def applyOp (st : SimState) : Op → SimState
  | .alloc idx => (add_process st idx).2
  | .dealloc pid => deallocate_memory st pid
  | .tick => simulate_time_step st

def runOps (st : SimState) : List Op → SimState
  | [] => st
  | op :: ops => runOps (applyOp st op) ops

/-- `tilesFrom a N bs`: the blocks `bs` exactly tile the address range
`[a, N)` — each block starts where the previous one ended (the first at
`a`), every block has positive size, and the last ends at `N`. -/
def tilesFrom (a N : Nat) : List MemoryBlock → Bool
  | [] => a == N
  | b :: rest => (b.start_address == a) && (0 < b.size) && tilesFrom (a + b.size) N rest

/-- The core invariant of the spec: the block list exactly tiles
`[0, N)`. -/
def tiles (N : Nat) (bs : List MemoryBlock) : Bool :=
  tilesFrom 0 N bs

/-- No two consecutive blocks of the list are both free. -/
def noAdjacentFreePair : List MemoryBlock → Bool
  | [] => true
  | [_] => true
  | b1 :: b2 :: rest => !(b1.is_free && b2.is_free) && noAdjacentFreePair (b2 :: rest)

namespace FinalC

/-- `struct FreeBlock` from src/final.c: the free list holds only free
blocks, so there is no `is_free` flag. -/
structure FreeBlock where
  start : Nat
  size : Nat
deriving DecidableEq

/-- The loop body of src/final.c `merge_free_blocks` (lines 214-226)
with `b` playing `current`: the next node is absorbed exactly when it
starts where `current` ends; otherwise `current` advances.  Only
list-consecutive pairs are examined. -/
def mergeAuxF (b : FreeBlock) : List FreeBlock → List FreeBlock
  | [] => [b]
  | b2 :: rest =>
      if b.start + b.size == b2.start then
        mergeAuxF { start := b.start, size := b.size + b2.size } rest
      else
        b :: mergeAuxF b2 rest

/-- `merge_free_blocks` (src/final.c lines 214-226). -/
def merge_free_blocks : List FreeBlock → List FreeBlock
  | [] => []
  | b :: rest => mergeAuxF b rest

/-- Two address-adjacent free blocks somewhere in the list (in either
direction): the pair the spec's coalesce is required to merge. -/
def hasAdjacentPair (bs : List FreeBlock) : Bool :=
  bs.any fun b1 => bs.any fun b2 => b1.start + b1.size == b2.start

end FinalC

namespace Paging

/-- `PAGE_SIZE` from src/test2.c. -/
def PAGE_SIZE : Nat := 4

/-- `MAX_PARTITION_SIZE` from src/test2.c. -/
def MAX_PARTITION_SIZE : Nat := 256

/-- One slot of the parallel arrays `frame_table[i]` /
`frame_owner[i]` from src/test2.c. -/
structure Frame where
  allocated : Bool
  owner : Int
deriving DecidableEq

/-- `PageTableEntry` from src/test2.c. -/
structure PageTableEntry where
  page_number : Nat
  frame_number : Int
  is_loaded : Bool
deriving DecidableEq

/-- `ProcessPageTable` from src/test2.c. -/
structure ProcessPageTable where
  process_id : Int
  total_pages : Nat
  entries : List PageTableEntry
deriving DecidableEq

/-- `struct Process` from src/test2.c. -/
structure Process where
  pid : Int
  size : Nat
  arrival_time : Int
  allocated : Bool
  allocation_time : Int
  memory_address : Int
  uses_paging : Bool
  page_table : Option ProcessPageTable
deriving DecidableEq

/-- The global state of src/test2.c: the partitioning block list, the
frame table, the registry, waiting queue (registry indices), allocated
pid list, clock, and total memory size. -/
structure PState where
  blocks : List MemoryBlock
  frames : List Frame
  procs : List Process
  waiting : List Nat
  allocated : List Int
  current_time : Int
  total_memory_size : Nat
deriving DecidableEq

/-- `create_page_table` (src/test2.c lines 281-295). -/
def create_page_table (pid : Int) (pages_needed : Nat) : ProcessPageTable :=
  { process_id := pid, total_pages := pages_needed,
    entries := (List.range pages_needed).map fun i =>
      { page_number := i, frame_number := -1, is_loaded := false } }

/-- The inner loop of `allocate_frames` (src/test2.c lines 306-319):
index of the first free frame, `none` when all are allocated.  `j` is
the index of the head of the list being scanned. -/
def findFreeFrame : List Frame → Nat → Option Nat
  | [], _ => none
  | f :: rest, j => if !f.allocated then some j else findFreeFrame rest (j + 1)

/-- The outer loop of `allocate_frames` (src/test2.c lines 298-328):
for each page-table entry in order, claim the first free frame for
`pid`; stop at the first entry for which no frame is free.  Returns the
updated frames, the updated entries, and the number of frames
claimed. -/
def allocate_framesAux (pid : Int) (frames : List Frame) :
    List PageTableEntry → List Frame × List PageTableEntry × Nat
  | [] => (frames, [], 0)
  | e :: es =>
      match findFreeFrame frames 0 with
      | none => (frames, e :: es, 0)
      | some j =>
          let frames' := frames.set j { allocated := true, owner := pid }
          let e' := { e with frame_number := (j : Int), is_loaded := true }
          let r := allocate_framesAux pid frames' es
          (r.1, e' :: r.2.1, r.2.2 + 1)

/-- `allocate_frames` (src/test2.c lines 298-328). -/
def allocate_frames (frames : List Frame) (pt : ProcessPageTable) :
    List Frame × ProcessPageTable × Nat :=
  ((allocate_framesAux pt.process_id frames pt.entries).1,
   { pt with entries := (allocate_framesAux pt.process_id frames pt.entries).2.1 },
   (allocate_framesAux pt.process_id frames pt.entries).2.2)

/-- `allocate_with_paging` (src/test2.c lines 331-359): round the size
up to whole pages, claim up to that many frames, and mark the process
allocated when at least one frame was claimed; with zero frames claimed
the page table is discarded and the call fails. -/
def allocate_with_paging (st : PState) (idx : Nat) : Bool × PState :=
  match st.procs[idx]? with
  | none => (false, st)
  | some p =>
      if 0 < (allocate_frames st.frames
          (create_page_table p.pid ((p.size + PAGE_SIZE - 1) / PAGE_SIZE))).2.2 then
        (true, { st with
          frames := (allocate_frames st.frames
            (create_page_table p.pid ((p.size + PAGE_SIZE - 1) / PAGE_SIZE))).1,
          procs := st.procs.set idx
            { p with allocated := true, allocation_time := st.current_time,
                     uses_paging := true,
                     page_table := some (allocate_frames st.frames
                       (create_page_table p.pid
                         ((p.size + PAGE_SIZE - 1) / PAGE_SIZE))).2.1 },
          allocated := st.allocated ++ [p.pid] })
      else
        (false, st)

/-- `allocate_memory` of src/test2.c (lines 214-278): identical block
handling to src/test.c, but refusing any process larger than
`MAX_PARTITION_SIZE`, and recording `uses_paging = false`. -/
def allocate_memory (st : PState) (idx : Nat) : Bool × PState :=
  match st.procs[idx]? with
  | none => (false, st)
  | some p =>
      if MAX_PARTITION_SIZE < p.size then (false, st)
      else
        match allocBlocks st.blocks p.size p.pid p.arrival_time st.current_time with
        | none => (false, st)
        | some (blocks', addr) =>
            (true, { st with blocks := blocks',
                             procs := st.procs.set idx
                               { p with allocated := true,
                                        allocation_time := st.current_time,
                                        memory_address := (addr : Int),
                                        uses_paging := false },
                             allocated := st.allocated ++ [p.pid] })

/-- `handle_process` (src/test2.c lines 362-379): dynamic partitioning
first for small processes, paging otherwise. -/
def handle_process (st : PState) (idx : Nat) : Bool × PState :=
  match st.procs[idx]? with
  | none => (false, st)
  | some p =>
      if p.size ≤ MAX_PARTITION_SIZE then
        if (allocate_memory st idx).1 then allocate_memory st idx
        else if (allocate_with_paging (allocate_memory st idx).2 idx).1 then
          allocate_with_paging (allocate_memory st idx).2 idx
        else (false, (allocate_with_paging (allocate_memory st idx).2 idx).2)
      else if (allocate_with_paging st idx).1 then allocate_with_paging st idx
      else (false, (allocate_with_paging st idx).2)

/-- `add_process` (src/test2.c lines 519-535). -/
def add_process (st : PState) (idx : Nat) : Bool × PState :=
  match st.procs[idx]? with
  | none => (false, st)
  | some p =>
      if st.current_time < p.arrival_time then (false, st)
      else if (handle_process st idx).1 then (true, (handle_process st idx).2)
      else (false, { (handle_process st idx).2 with
                     waiting := (handle_process st idx).2.waiting ++ [idx] })

/-- The frame loop of `deallocate_paged_process` (src/test2.c lines
387-392): every allocated frame owned by `pid` is cleared (owner back
to `-1`); all other frames are left as they are. -/
def deallocate_paged_frames (pid : Int) (frames : List Frame) : List Frame :=
  frames.map fun f =>
    if f.allocated && f.owner == pid then { allocated := false, owner := -1 } else f

/-- `deallocate_paged_process` (src/test2.c lines 382-404): clear the
frames of `pid`, then drop the page table of the first allocated paged
registry entry with that pid and mark it unallocated. -/
def deallocate_paged_process (st : PState) (pid : Int) : PState :=
  let frames' := deallocate_paged_frames pid st.frames
  let procs' :=
    match st.procs.findIdx? (fun p => p.pid == pid && p.allocated && p.uses_paging) with
    | some j =>
        match st.procs[j]? with
        | some p => st.procs.set j { p with page_table := none, allocated := false }
        | none => st.procs
    | none => st.procs
  { st with frames := frames', procs := procs' }

/-- The number of free frames. -/
def freeFrameCount (frames : List Frame) : Nat :=
  (frames.filter fun f => !f.allocated).length

/-- The number of frames owned by `pid`. -/
def ownedFrameCount (pid : Int) (frames : List Frame) : Nat :=
  (frames.filter fun f => f.allocated && f.owner == pid).length

end Paging

/-- The placement-relevant shape of a block: start address, size, and
free/used status (the identity of the owner and the bookkeeping times
are not part of the region layout). -/
def blockShape (b : MemoryBlock) : Nat × Nat × Bool :=
  (b.start_address, b.size, b.is_free)

/-- What it means for `r` to be the best-fit choice of a scan for
`req` units over `bs`: `none` exactly when no free block is large
enough; otherwise the chosen block is free, large enough, of minimal
size among all qualifying blocks, and strictly smaller than every
qualifying block before it (ties keep the first encountered). -/
def BestFitAt (req : Nat) (bs : List MemoryBlock) : Option (Nat × MemoryBlock) → Prop
  | none => ∀ (i : Nat) (b : MemoryBlock),
      bs[i]? = some b → b.is_free = true → req ≤ b.size → False
  | some (j, bb) =>
      bs[j]? = some bb ∧ bb.is_free = true ∧ req ≤ bb.size ∧
      (∀ (i : Nat) (b : MemoryBlock),
        bs[i]? = some b → b.is_free = true → req ≤ b.size → bb.size ≤ b.size) ∧
      (∀ (i : Nat) (b : MemoryBlock),
        i < j → bs[i]? = some b → b.is_free = true → req ≤ b.size → bb.size < b.size)

/-- Owners of the non-free blocks, in list order. -/
def ownersOf (bs : List MemoryBlock) : List Int :=
  (bs.filter fun b => !b.is_free).map MemoryBlock.process_id

/-- Does some non-free block carry `pid`? -/
def ownsBlock (bs : List MemoryBlock) (pid : Int) : Bool :=
  bs.any fun b => !b.is_free && b.process_id == pid

/-- The layout invariant of claim C1: the pool size is `N`, the block
list tiles `[0, N)`, and every registry process has positive size (the
input-feed contract of the spec). -/
def LayoutInv (N : Nat) (st : SimState) : Prop :=
  st.total_memory_size = N ∧ tiles N st.blocks = true ∧ ∀ p ∈ st.procs, 0 < p.size

/-- Reference behaviour of the waiting-queue retry pass, written from
the spec's words: attempt placement for each member exactly once in
queue order; a success drops the member, a failure keeps it in place;
the number of successes is returned. -/
def retrySpec (st : SimState) : List Nat → SimState × List Nat × Nat
  | [] => (st, [], 0)
  | idx :: rest =>
      if (allocate_memory st idx).1 then
        ((retrySpec (allocate_memory st idx).2 rest).1,
         (retrySpec (allocate_memory st idx).2 rest).2.1,
         (retrySpec (allocate_memory st idx).2 rest).2.2 + 1)
      else
        ((retrySpec (allocate_memory st idx).2 rest).1,
         idx :: (retrySpec (allocate_memory st idx).2 rest).2.1,
         (retrySpec (allocate_memory st idx).2 rest).2.2)

/-- `k` consecutive clock ticks. -/
def tickIter : Nat → SimState → SimState
  | 0, st => st
  | k + 1, st => tickIter k (simulate_time_step st)

/-- The reachable-state invariant used for the temporal claims: queue
indices are valid and duplicate-free, pids are unique, every allocated
pid owns exactly one block and its process still has time to run,
completed processes hold no resources and are in no queue, waiting
processes hold no memory, and execution times are positive. -/
structure Good (st : SimState) : Prop where
  waiting_lt : ∀ i ∈ st.waiting, i < st.procs.length
  waiting_nodup : st.waiting.Nodup
  pids_nodup : (st.procs.map Process.pid).Nodup
  alloc_nodup : st.allocated.Nodup
  owners_nodup : (ownersOf st.blocks).Nodup
  alloc_owns : ∀ pid ∈ st.allocated, ownsBlock st.blocks pid = true
  alloc_rem : ∀ pid ∈ st.allocated, ∀ (j : Nat) (p : Process),
    get_process_by_pid st.procs pid = some (j, p) → 1 ≤ p.remaining_time
  completed_clean : ∀ p ∈ st.procs, p.completed = true →
    p.pid ∉ st.allocated ∧ ownsBlock st.blocks p.pid = false ∧
    ∀ i ∈ st.waiting, ∀ (q : Process), st.procs[i]? = some q → q.pid ≠ p.pid
  waiting_fresh : ∀ i ∈ st.waiting, ∀ (q : Process), st.procs[i]? = some q →
    q.pid ∉ st.allocated ∧ ownsBlock st.blocks q.pid = false
  exec_pos : ∀ p ∈ st.procs, 1 ≤ p.execution_time

/-- How the registry may evolve across one tick: completed records are
frozen, and a record that became completed did so with its remaining
time at exactly `0`; pid, size, execution time and list length never
change. -/
def ProcsEvol (orig cur : List Process) : Prop :=
  orig.length = cur.length ∧
  ∀ (j : Nat) (p0 p1 : Process), orig[j]? = some p0 → cur[j]? = some p1 →
    p1.pid = p0.pid ∧ p1.size = p0.size ∧ p1.execution_time = p0.execution_time ∧
    (p0.completed = true → p1 = p0) ∧
    (p0.completed = false → p1.completed = true → p1.remaining_time = 0)

/-! ### Lemmas about the best-fit scan -/

theorem getElem?_append_singleton {α : Type} (pre : List α) (b : α) (i : Nat) :
    (pre ++ [b])[i]? =
      if i < pre.length then pre[i]? else if i = pre.length then some b else none := by
  split
  · exact List.getElem?_append_left (by assumption)
  · rename_i h1
    rw [List.getElem?_append_right (by omega)]
    split
    · rename_i h2; subst h2; simp
    · rename_i h2
      have h3 : i - pre.length ≠ 0 := by omega
      rcases Nat.exists_eq_succ_of_ne_zero h3 with ⟨k, hk⟩
      rw [hk]
      simp

theorem getElem?_append_singleton_cases {α : Type} {pre : List α} {b x : α} {i : Nat}
    (h : (pre ++ [b])[i]? = some x) :
    (i < pre.length ∧ pre[i]? = some x) ∨ (i = pre.length ∧ x = b) := by
  rw [getElem?_append_singleton] at h
  by_cases h1 : i < pre.length
  · rw [if_pos h1] at h; exact Or.inl ⟨h1, h⟩
  · rw [if_neg h1] at h
    by_cases h2 : i = pre.length
    · rw [if_pos h2] at h; cases h; exact Or.inr ⟨h2, rfl⟩
    · rw [if_neg h2] at h; cases h

theorem bestFitBody_spec (req : Nat) (pre : List MemoryBlock) (b : MemoryBlock)
    (acc : Option (Nat × MemoryBlock)) (h : BestFitAt req pre acc) :
    BestFitAt req (pre ++ [b]) (bestFitBody req pre.length b acc) := by
  by_cases hc : b.is_free = true ∧ req ≤ b.size
  · rcases acc with _ | ⟨j, bb⟩
    · have hbody : bestFitBody req pre.length b none = some (pre.length, b) := by
        simp [bestFitBody, hc.1, hc.2]
      rw [hbody]
      simp only [BestFitAt] at h ⊢
      refine ⟨?_, hc.1, hc.2, ?_, ?_⟩
      · simp [getElem?_append_singleton]
      · intro i b' hi hf hs
        rcases getElem?_append_singleton_cases hi with ⟨h1, hi⟩ | ⟨h1, rfl⟩
        · exact (h i b' hi hf hs).elim
        · exact le_refl _
      · intro i b' hij hi hf hs
        rcases getElem?_append_singleton_cases hi with ⟨h1, hi⟩ | ⟨h1, rfl⟩
        · exact (h i b' hi hf hs).elim
        · omega
    · obtain ⟨hjb, hbf, hbs, hmin, hstrict⟩ := h
      have hjlt : j < pre.length := by
        by_contra hge
        rw [List.getElem?_eq_none (by omega)] at hjb
        cases hjb
      by_cases hlt : b.size < bb.size
      · have hbody : bestFitBody req pre.length b (some (j, bb)) = some (pre.length, b) := by
          simp [bestFitBody, hc.1, hc.2, hlt]
        rw [hbody]
        simp only [BestFitAt]
        refine ⟨by simp [getElem?_append_singleton], hc.1, hc.2, ?_, ?_⟩
        · intro i b' hi hf hs
          rcases getElem?_append_singleton_cases hi with ⟨h1, hi⟩ | ⟨h1, rfl⟩
          · exact le_of_lt (lt_of_lt_of_le hlt (hmin i b' hi hf hs))
          · exact le_refl _
        · intro i b' hij hi hf hs
          rcases getElem?_append_singleton_cases hi with ⟨h1, hi⟩ | ⟨h1, rfl⟩
          · exact lt_of_lt_of_le hlt (hmin i b' hi hf hs)
          · omega
      · have hbody : bestFitBody req pre.length b (some (j, bb)) = some (j, bb) := by
          simp [bestFitBody, hc.1, hc.2, hlt]
        rw [hbody]
        simp only [BestFitAt]
        refine ⟨?_, hbf, hbs, ?_, ?_⟩
        · rw [getElem?_append_singleton, if_pos hjlt]; exact hjb
        · intro i b' hi hf hs
          rcases getElem?_append_singleton_cases hi with ⟨h1, hi⟩ | ⟨h1, rfl⟩
          · exact hmin i b' hi hf hs
          · omega
        · intro i b' hij hi hf hs
          rcases getElem?_append_singleton_cases hi with ⟨h1, hi⟩ | ⟨h1, rfl⟩
          · exact hstrict i b' hij hi hf hs
          · omega
  · have hbody : bestFitBody req pre.length b acc = acc := by
      have hcb : ¬ ((b.is_free && decide (req ≤ b.size)) = true) := by
        intro hh
        rw [Bool.and_eq_true, decide_eq_true_iff] at hh
        exact hc hh
      simp only [bestFitBody, if_neg hcb]
    rw [hbody]
    rcases acc with _ | ⟨j, bb⟩
    · simp only [BestFitAt] at h ⊢
      intro i b' hi hf hs
      rcases getElem?_append_singleton_cases hi with ⟨h1, hi⟩ | ⟨h1, rfl⟩
      · exact h i b' hi hf hs
      · exact hc ⟨hf, hs⟩
    · obtain ⟨hjb, hbf, hbs, hmin, hstrict⟩ := h
      have hjlt : j < pre.length := by
        by_contra hge
        rw [List.getElem?_eq_none (by omega)] at hjb
        cases hjb
      simp only [BestFitAt]
      refine ⟨?_, hbf, hbs, ?_, ?_⟩
      · rw [getElem?_append_singleton, if_pos hjlt]; exact hjb
      · intro i b' hi hf hs
        rcases getElem?_append_singleton_cases hi with ⟨h1, hi⟩ | ⟨h1, rfl⟩
        · exact hmin i b' hi hf hs
        · exact absurd ⟨hf, hs⟩ hc
      · intro i b' hij hi hf hs
        rcases getElem?_append_singleton_cases hi with ⟨h1, hi⟩ | ⟨h1, rfl⟩
        · exact hstrict i b' hij hi hf hs
        · exact absurd ⟨hf, hs⟩ hc

theorem bestFitAux_spec (req : Nat) :
    ∀ (bs pre : List MemoryBlock) (acc : Option (Nat × MemoryBlock)),
      BestFitAt req pre acc →
      BestFitAt req (pre ++ bs) (bestFitAux req bs pre.length acc) := by
  intro bs
  induction bs with
  | nil => intro pre acc h; simpa [bestFitAux] using h
  | cons b rest ih =>
      intro pre acc h
      have hstep := bestFitBody_spec req pre b acc h
      have h2 := ih (pre ++ [b]) _ hstep
      rw [List.length_append] at h2
      rw [List.append_assoc] at h2
      simp only [List.length_cons, List.length_nil, List.singleton_append, Nat.zero_add] at h2
      simp only [bestFitAux]
      exact h2

theorem bestFit_correct (req : Nat) (bs : List MemoryBlock) :
    BestFitAt req bs (bestFitAux req bs 0 none) := by
  have h0 : BestFitAt req [] none := by
    intro i b hi _ _
    simp at hi
  have h1 := bestFitAux_spec req bs [] none h0
  simpa using h1

/-! ### Lemmas about the tiling invariant -/

theorem tilesFrom_set {N : Nat} (b b' : MemoryBlock)
    (hs : b'.start_address = b.start_address) (hz : b'.size = b.size) :
    ∀ (bs : List MemoryBlock) (i a : Nat), bs[i]? = some b →
      tilesFrom a N (bs.set i b') = tilesFrom a N bs := by
  intro bs
  induction bs with
  | nil => intro i a h; simp at h
  | cons c rest ih =>
      intro i a h
      cases i with
      | zero =>
          simp only [List.getElem?_cons_zero, Option.some.injEq] at h
          subst h
          simp only [List.set_cons_zero, tilesFrom, hs, hz]
      | succ i =>
          simp only [List.getElem?_cons_succ] at h
          simp only [List.set_cons_succ, tilesFrom, ih i (a + c.size) h]

theorem tilesFrom_splice {N : Nat} (b b1 b2 : MemoryBlock) (sz : Nat)
    (h1s : b1.start_address = b.start_address) (h1z : b1.size = sz)
    (h2s : b2.start_address = b.start_address + sz) (h2z : b2.size = b.size - sz)
    (hpos : 0 < sz) (hlt : sz < b.size) :
    ∀ (bs : List MemoryBlock) (i a : Nat), bs[i]? = some b →
      tilesFrom a N bs = true →
      tilesFrom a N (bs.take i ++ [b1, b2] ++ bs.drop (i + 1)) = true := by
  intro bs
  induction bs with
  | nil => intro i a h; simp at h
  | cons c rest ih =>
      intro i a h ht
      cases i with
      | zero =>
          simp only [List.getElem?_cons_zero, Option.some.injEq] at h
          rw [h] at ht
          simp only [List.take_zero, List.drop_succ_cons, List.drop_zero, List.nil_append,
            List.cons_append, tilesFrom] at ht ⊢
          simp only [Bool.and_eq_true, beq_iff_eq, decide_eq_true_eq] at ht ⊢
          obtain ⟨⟨hca, hcz⟩, hrest⟩ := ht
          refine ⟨⟨by omega, by omega⟩, ⟨by omega, by omega⟩, ?_⟩
          have : a + b1.size + b2.size = a + b.size := by omega
          rw [this]
          exact hrest
      | succ i =>
          simp only [List.getElem?_cons_succ] at h
          simp only [List.take_succ_cons, List.drop_succ_cons, List.cons_append, tilesFrom] at ht ⊢
          simp only [Bool.and_eq_true, beq_iff_eq, decide_eq_true_eq] at ht ⊢
          obtain ⟨hhead, hrest⟩ := ht
          exact ⟨hhead, ih i (a + c.size) h hrest⟩

theorem freeFirstBlock_tilesFrom {N : Nat} (pid : Int) :
    ∀ (bs bs' : List MemoryBlock) (a : Nat), freeFirstBlock pid bs = some bs' →
      tilesFrom a N bs' = tilesFrom a N bs := by
  intro bs
  induction bs with
  | nil => intro bs' a h; simp [freeFirstBlock] at h
  | cons b rest ih =>
      intro bs' a h
      simp only [freeFirstBlock] at h
      split at h
      · cases h
        rfl
      · rcases hrec : freeFirstBlock pid rest with _ | rest'
        · rw [hrec] at h; cases h
        · rw [hrec] at h
          simp only [Option.map_some', Option.some.injEq] at h
          subst h
          simp only [tilesFrom, ih rest' (a + b.size) hrec]

theorem mergeAux_head :
    ∀ (rest : List MemoryBlock) (b : MemoryBlock),
      ∃ (s : Nat) (tl : List MemoryBlock),
        mergeAux b rest = { b with size := s } :: tl ∧ b.size ≤ s := by
  intro rest
  induction rest with
  | nil => intro b; exact ⟨b.size, [], rfl, le_refl _⟩
  | cons b2 rest ih =>
      intro b
      simp only [mergeAux]
      split
      · obtain ⟨s, tl, heq, hle⟩ := ih { b with size := b.size + b2.size }
        exact ⟨s, tl, heq, by simpa using le_trans (Nat.le_add_right _ _) hle⟩
      · exact ⟨b.size, mergeAux b2 rest, rfl, le_refl _⟩

theorem mergeAux_tilesFrom {N : Nat} :
    ∀ (rest : List MemoryBlock) (b : MemoryBlock) (a : Nat),
      tilesFrom a N (b :: rest) = true → tilesFrom a N (mergeAux b rest) = true := by
  intro rest
  induction rest with
  | nil => intro b a h; rw [show mergeAux b [] = [b] from rfl]; exact h
  | cons b2 rest ih =>
      intro b a h
      simp only [tilesFrom, Bool.and_eq_true, beq_iff_eq, decide_eq_true_eq] at h
      obtain ⟨⟨hba, hbz⟩, ⟨hb2a, hb2z⟩, hrest⟩ := h
      simp only [mergeAux]
      split
      · apply ih
        simp only [tilesFrom, Bool.and_eq_true, beq_iff_eq, decide_eq_true_eq]
        refine ⟨⟨hba, by omega⟩, ?_⟩
        have harith : a + (b.size + b2.size) = a + b.size + b2.size := by omega
        rw [harith]
        exact hrest
      · have htail : tilesFrom (a + b.size) N (b2 :: rest) = true := by
          simp only [tilesFrom, Bool.and_eq_true, beq_iff_eq, decide_eq_true_eq]
          exact ⟨⟨hb2a, hb2z⟩, hrest⟩
        simp only [tilesFrom, Bool.and_eq_true, beq_iff_eq, decide_eq_true_eq]
        exact ⟨⟨hba, hbz⟩, ih b2 (a + b.size) htail⟩

theorem merge_free_blocks_tiles {N : Nat} (bs : List MemoryBlock)
    (h : tiles N bs = true) : tiles N (merge_free_blocks bs) = true := by
  cases bs with
  | nil => simpa [merge_free_blocks] using h
  | cons b rest => exact mergeAux_tilesFrom rest b 0 h

theorem mergeAux_noAdjacentFreePair (rest : List MemoryBlock) :
    ∀ (b : MemoryBlock), noAdjacentFreePair (mergeAux b rest) = true := by
  induction rest with
  | nil => intro b; simp [mergeAux, noAdjacentFreePair]
  | cons b2 rest ih =>
      intro b
      simp only [mergeAux]
      split
      · exact ih _
      · rename_i hnf
        rw [Bool.not_eq_true] at hnf
        obtain ⟨s, tl, heq, _⟩ := mergeAux_head rest b2
        rw [heq]
        have htl := ih b2
        rw [heq] at htl
        cases tl with
        | nil => simp [noAdjacentFreePair, hnf]
        | cons c tl2 =>
            simp only [noAdjacentFreePair, Bool.and_eq_true] at htl ⊢
            refine ⟨?_, htl⟩
            simp [hnf]

theorem merge_free_blocks_noAdjacentFreePair (bs : List MemoryBlock) :
    noAdjacentFreePair (merge_free_blocks bs) = true := by
  cases bs with
  | nil => simp [merge_free_blocks, noAdjacentFreePair]
  | cons b rest => exact mergeAux_noAdjacentFreePair rest b

/-! ### Preservation of the layout invariant (claim C1) -/

theorem getProcAux_mem (pid : Int) :
    ∀ (procs : List Process) (k j : Nat) (p : Process),
      getProcAux pid procs k = some (j, p) → p ∈ procs := by
  intro procs
  induction procs with
  | nil => intro k j p h; simp [getProcAux] at h
  | cons q rest ih =>
      intro k j p h
      simp only [getProcAux] at h
      split at h
      · simp only [Option.some.injEq, Prod.mk.injEq] at h
        rw [← h.2]
        exact List.mem_cons_self q rest
      · exact List.mem_cons_of_mem q (ih (k + 1) j p h)

theorem get_process_by_pid_mem {procs : List Process} {pid : Int} {j : Nat} {p : Process}
    (h : get_process_by_pid procs pid = some (j, p)) : p ∈ procs :=
  getProcAux_mem pid procs 0 j p h

theorem allocBlocks_tiles {N : Nat} {bs : List MemoryBlock} {sz : Nat} {pid arr now : Int}
    {bs' : List MemoryBlock} {addr : Nat}
    (h : allocBlocks bs sz pid arr now = some (bs', addr))
    (hsz : 0 < sz) (ht : tiles N bs = true) : tiles N bs' = true := by
  have hbf := bestFit_correct sz bs
  unfold allocBlocks at h
  split at h
  · cases h
  · rename_i i b hfit
    rw [hfit] at hbf
    obtain ⟨hib, hfree, hle, _, _⟩ := hbf
    split at h
    · rename_i hc
      simp only [Option.some.injEq, Prod.mk.injEq] at h
      rw [← h.1]
      have heq := tilesFrom_set (N := N) b
        { b with is_free := false, process_id := pid, arrival_time := arr,
                 allocation_time := now } rfl rfl bs i 0 hib
      rw [tiles, heq]
      exact ht
    · rename_i hc
      simp only [Option.some.injEq, Prod.mk.injEq] at h
      rw [← h.1]
      exact tilesFrom_splice b
        { start_address := b.start_address, size := sz, is_free := false,
          process_id := pid, arrival_time := arr, allocation_time := now }
        { start_address := b.start_address + sz, size := b.size - sz,
          is_free := true, process_id := -1, arrival_time := -1, allocation_time := -1 }
        sz rfl rfl rfl rfl hsz (by omega) bs i 0 hib ht

theorem allocate_memory_LayoutInv {N : Nat} {st : SimState} (idx : Nat)
    (h : LayoutInv N st) : LayoutInv N (allocate_memory st idx).2 := by
  obtain ⟨hN, ht, hsz⟩ := h
  unfold allocate_memory
  split
  · exact ⟨hN, ht, hsz⟩
  · rename_i p hp
    split
    · exact ⟨hN, ht, hsz⟩
    · rename_i blocks' addr hb
      refine ⟨hN, ?_, ?_⟩
      · exact allocBlocks_tiles hb (hsz p (List.getElem?_mem hp)) (hN ▸ ht)
      · intro q hq
        rcases List.mem_or_eq_of_mem_set hq with hq | rfl
        · exact hsz q hq
        · exact hsz p (List.getElem?_mem hp)

theorem deallocate_memory_LayoutInv {N : Nat} {st : SimState} (pid : Int)
    (h : LayoutInv N st) : LayoutInv N (deallocate_memory st pid) := by
  obtain ⟨hN, ht, hsz⟩ := h
  unfold deallocate_memory
  split
  · exact ⟨hN, ht, hsz⟩
  · rename_i blocks1 hf
    have ht1 : tiles N blocks1 = true := by
      rw [tiles, freeFirstBlock_tilesFrom pid st.blocks blocks1 0 hf]
      exact hN ▸ ht
    split
    · rename_i j p hg
      split
      · refine ⟨hN, merge_free_blocks_tiles _ ht1, ?_⟩
        intro q hq
        rcases List.mem_or_eq_of_mem_set hq with hq | rfl
        · exact hsz q hq
        · exact hsz p (get_process_by_pid_mem hg)
      · exact ⟨hN, merge_free_blocks_tiles _ ht1, hsz⟩
    · exact ⟨hN, merge_free_blocks_tiles _ ht1, hsz⟩

theorem checkCompletionAux_LayoutInv {N : Nat} :
    ∀ (fuel : Nat) (st : SimState) (i : Nat),
      LayoutInv N st → LayoutInv N (checkCompletionAux fuel st i) := by
  intro fuel
  induction fuel with
  | zero => intro st i h; exact h
  | succ fuel ih =>
      intro st i h
      simp only [checkCompletionAux]
      split
      · split
        · rename_i j p hg
          split
          · rename_i hnc
            split
            · apply ih
              apply deallocate_memory_LayoutInv
              obtain ⟨hN, ht, hsz⟩ := h
              refine ⟨hN, ht, ?_⟩
              intro q hq
              rcases List.mem_or_eq_of_mem_set hq with hq | rfl
              · exact hsz q hq
              · exact hsz p (get_process_by_pid_mem hg)
            · apply ih
              obtain ⟨hN, ht, hsz⟩ := h
              refine ⟨hN, ht, ?_⟩
              intro q hq
              rcases List.mem_or_eq_of_mem_set hq with hq | rfl
              · exact hsz q hq
              · exact hsz p (get_process_by_pid_mem hg)
          · exact ih st (i + 1) h
        · exact ih st (i + 1) h
      · exact h

theorem checkWaitingAux_LayoutInv {N : Nat} :
    ∀ (fuel : Nat) (st : SimState) (q : List Nat) (i n : Nat),
      LayoutInv N st → LayoutInv N (checkWaitingAux fuel st q i n).1 := by
  intro fuel
  induction fuel with
  | zero => intro st q i n h; exact h
  | succ fuel ih =>
      intro st q i n h
      simp only [checkWaitingAux]
      split
      · split
        · exact ih _ _ _ _ (allocate_memory_LayoutInv _ h)
        · exact ih _ _ _ _ (allocate_memory_LayoutInv _ h)
      · exact h

theorem check_waiting_processes_LayoutInv {N : Nat} {st : SimState}
    (h : LayoutInv N st) : LayoutInv N (check_waiting_processes st) := by
  unfold check_waiting_processes
  split
  · exact h
  · obtain ⟨hN, ht, hsz⟩ := checkWaitingAux_LayoutInv (st.waiting.length + 1) st st.waiting 0 0 h
    exact ⟨hN, ht, hsz⟩

theorem check_process_completion_LayoutInv {N : Nat} {st : SimState}
    (h : LayoutInv N st) : LayoutInv N (check_process_completion st) :=
  checkCompletionAux_LayoutInv _ st 0 h

theorem calculate_memory_utilization_LayoutInv {N : Nat} {st : SimState}
    (h : LayoutInv N st) : LayoutInv N (calculate_memory_utilization st) := h

theorem simulate_time_step_LayoutInv {N : Nat} {st : SimState}
    (h : LayoutInv N st) : LayoutInv N (simulate_time_step st) := by
  apply calculate_memory_utilization_LayoutInv
  apply check_waiting_processes_LayoutInv
  apply check_process_completion_LayoutInv
  exact h

theorem add_process_LayoutInv {N : Nat} {st : SimState} (idx : Nat)
    (h : LayoutInv N st) : LayoutInv N (add_process st idx).2 := by
  unfold add_process
  split
  · exact h
  · split
    · exact h
    · split
      · exact allocate_memory_LayoutInv idx h
      · obtain ⟨hN, ht, hsz⟩ := allocate_memory_LayoutInv idx h
        exact ⟨hN, ht, hsz⟩

theorem applyOp_LayoutInv {N : Nat} {st : SimState} (op : Op)
    (h : LayoutInv N st) : LayoutInv N (applyOp st op) := by
  cases op with
  | alloc idx => exact add_process_LayoutInv idx h
  | dealloc pid => exact deallocate_memory_LayoutInv pid h
  | tick => exact simulate_time_step_LayoutInv h

theorem runOps_LayoutInv {N : Nat} :
    ∀ (ops : List Op) (st : SimState), LayoutInv N st → LayoutInv N (runOps st ops) := by
  intro ops
  induction ops with
  | nil => intro st h; exact h
  | cons op ops ih => intro st h; exact ih _ (applyOp_LayoutInv op h)

theorem init_memory_LayoutInv {N : Nat} (procs : List Process) (hN : 0 < N)
    (hsz : ∀ p ∈ procs, 0 < p.size) : LayoutInv N (init_memory N procs) := by
  refine ⟨rfl, ?_, hsz⟩
  simp [init_memory, tiles, tilesFrom, hN]

/-! ### Helper lemmas shared by several claims -/

theorem allocate_consume (st : SimState) (idx : Nat) (p : Process) (i : Nat) (b : MemoryBlock)
    (hp : st.procs[idx]? = some p)
    (hfit : bestFitAux p.size st.blocks 0 none = some (i, b))
    (hc : b.size ≤ p.size + 3) :
    (allocate_memory st idx).1 = true ∧
    (allocate_memory st idx).2.blocks =
      st.blocks.set i
        { b with is_free := false, process_id := p.pid,
                 arrival_time := p.arrival_time,
                 allocation_time := st.current_time } := by
  have hab : allocBlocks st.blocks p.size p.pid p.arrival_time st.current_time =
      some (st.blocks.set i
        { b with is_free := false, process_id := p.pid,
                 arrival_time := p.arrival_time,
                 allocation_time := st.current_time },
        b.start_address) := by
    unfold allocBlocks
    simp only [hfit]
    rw [if_pos hc]
  unfold allocate_memory
  simp only [hp, hab]
  exact ⟨trivial, trivial⟩

theorem allocate_split (st : SimState) (idx : Nat) (p : Process) (i : Nat) (b : MemoryBlock)
    (hp : st.procs[idx]? = some p)
    (hfit : bestFitAux p.size st.blocks 0 none = some (i, b))
    (hc : p.size + 3 < b.size) :
    (allocate_memory st idx).1 = true ∧
    (allocate_memory st idx).2.blocks =
      st.blocks.take i ++
        [{ start_address := b.start_address, size := p.size, is_free := false,
           process_id := p.pid, arrival_time := p.arrival_time,
           allocation_time := st.current_time },
         { start_address := b.start_address + p.size, size := b.size - p.size,
           is_free := true, process_id := -1, arrival_time := -1,
           allocation_time := -1 }] ++ st.blocks.drop (i + 1) := by
  have hab : allocBlocks st.blocks p.size p.pid p.arrival_time st.current_time =
      some (st.blocks.take i ++
        [{ start_address := b.start_address, size := p.size, is_free := false,
           process_id := p.pid, arrival_time := p.arrival_time,
           allocation_time := st.current_time },
         { start_address := b.start_address + p.size, size := b.size - p.size,
           is_free := true, process_id := -1, arrival_time := -1,
           allocation_time := -1 }] ++ st.blocks.drop (i + 1),
        b.start_address) := by
    unfold allocBlocks
    simp only [hfit]
    rw [if_neg (by omega)]
  unfold allocate_memory
  simp only [hp, hab]
  exact ⟨trivial, trivial⟩

theorem deallocate_memory_blocks (st : SimState) (pid : Int) (blocks1 : List MemoryBlock)
    (h : freeFirstBlock pid st.blocks = some blocks1) :
    (deallocate_memory st pid).blocks = merge_free_blocks blocks1 := by
  unfold deallocate_memory
  simp only [h]
  split
  · split
    · rfl
    · rfl
  · rfl

theorem tilesFrom_mem_bound {N : Nat} :
    ∀ (bs : List MemoryBlock) (a : Nat), tilesFrom a N bs = true →
      ∀ b ∈ bs, (a ≤ b.start_address ∧ 0 < b.size) := by
  intro bs
  induction bs with
  | nil => intro a _ b hb; simp at hb
  | cons c rest ih =>
      intro a h b hb
      simp only [tilesFrom, Bool.and_eq_true, beq_iff_eq, decide_eq_true_eq] at h
      obtain ⟨⟨hca, hcz⟩, hrest⟩ := h
      rw [List.mem_cons] at hb
      rcases hb with rfl | hb
      · exact ⟨le_of_eq hca.symm, hcz⟩
      · have hrec := ih (a + c.size) hrest b hb
        exact ⟨by omega, hrec.2⟩

theorem tiles_no_addr_adjacent_free {N : Nat} :
    ∀ (bs : List MemoryBlock) (a : Nat), tilesFrom a N bs = true →
      noAdjacentFreePair bs = true →
      ∀ b1 ∈ bs, ∀ b2 ∈ bs, b1.is_free = true → b2.is_free = true →
        b1.start_address + b1.size ≠ b2.start_address := by
  intro bs
  induction bs with
  | nil => intro a _ _ b1 hb1; simp at hb1
  | cons c rest ih =>
      intro a ht hna b1 hb1 b2 hb2 hf1 hf2 heq
      simp only [tilesFrom, Bool.and_eq_true, beq_iff_eq, decide_eq_true_eq] at ht
      obtain ⟨⟨hca, hcz⟩, hrest⟩ := ht
      rw [List.mem_cons] at hb1 hb2
      rcases hb1 with rfl | hb1
      · rcases hb2 with rfl | hb2
        · omega
        · cases rest with
          | nil => simp at hb2
          | cons d rest2 =>
              simp only [tilesFrom, Bool.and_eq_true, beq_iff_eq, decide_eq_true_eq] at hrest
              obtain ⟨⟨hda, hdz⟩, hrest2⟩ := hrest
              rw [List.mem_cons] at hb2
              rcases hb2 with rfl | hb2
              · simp only [noAdjacentFreePair, Bool.and_eq_true, Bool.not_eq_eq_eq_not,
                  Bool.not_true] at hna
                rw [hf1, hf2] at hna
                simp at hna
              · have hbnd := (tilesFrom_mem_bound rest2 (a + b1.size + d.size) hrest2 b2 hb2).1
                omega
      · rcases hb2 with rfl | hb2
        · have hbnd := tilesFrom_mem_bound rest (a + b2.size) hrest b1 hb1
          omega
        · have hna2 : noAdjacentFreePair rest = true := by
            cases rest with
            | nil => rfl
            | cons d rest2 =>
                simp only [noAdjacentFreePair, Bool.and_eq_true] at hna
                exact hna.2
          exact ih (a + c.size) hrest hna2 b1 hb1 b2 hb2 hf1 hf2 heq

/-! ### Claim theorems: C1, C2, C3 -/

/-- C1: for every sequence of allocate, deallocate and tick operations
starting from an initialised pool of size `N > 0` (with the spec's
input contract of positive process sizes), the memory-block list
exactly tiles `[0, N)` at every observable point: the first block
starts at `0`, every block has positive size, consecutive blocks are
address-adjacent, and the last block ends at `N`. -/
theorem c1_layout_tiles (N : Nat) (procs : List Process) (ops : List Op)
    (hN : 0 < N) (hsz : ∀ p ∈ procs, 0 < p.size) :
    tiles N (runOps (init_memory N procs) ops).blocks = true :=
  (runOps_LayoutInv ops _ (init_memory_LayoutInv procs hN hsz)).2.1

theorem c1_layout_tiles_witness :
    0 < 100 ∧
    (∀ p ∈ [({ pid := 1, size := 20, arrival_time := 0, allocated := false,
               allocation_time := -1, memory_address := -1, waiting_time := 0,
               execution_time := 2, remaining_time := 2, completed := false } : Process)],
      0 < p.size) ∧
    tiles 100 (runOps
      (init_memory 100
        [{ pid := 1, size := 20, arrival_time := 0, allocated := false,
           allocation_time := -1, memory_address := -1, waiting_time := 0,
           execution_time := 2, remaining_time := 2, completed := false }])
      [Op.alloc 0, Op.tick, Op.tick, Op.tick]).blocks = true :=
  ⟨by decide, by decide,
    c1_layout_tiles 100 _ [Op.alloc 0, Op.tick, Op.tick, Op.tick] (by decide) (by decide)⟩

/-- C2: the placement scan of `allocate_memory` is best-fit: among the
free blocks of size at least the request it selects one of minimal
size, ties broken in favour of the first such block in scan order;
when no free block qualifies the allocation returns false and the pool
(blocks, registry, queues) is unchanged; and on free regions of sizes
`[50, 20, 35]` a request of `20` selects the size-20 region. -/
theorem c2_best_fit (st : SimState) (idx : Nat) (p : Process)
    (hp : st.procs[idx]? = some p) :
    BestFitAt p.size st.blocks (bestFitAux p.size st.blocks 0 none) ∧
    (bestFitAux p.size st.blocks 0 none = none →
      (allocate_memory st idx).1 = false ∧
      (allocate_memory st idx).2.blocks = st.blocks ∧
      (allocate_memory st idx).2.procs = st.procs ∧
      (allocate_memory st idx).2.allocated = st.allocated ∧
      (allocate_memory st idx).2.waiting = st.waiting) ∧
    (∀ (i : Nat) (b : MemoryBlock), bestFitAux p.size st.blocks 0 none = some (i, b) →
      (allocate_memory st idx).1 = true ∧
      allocBlocks st.blocks p.size p.pid p.arrival_time st.current_time =
        some ((allocate_memory st idx).2.blocks, b.start_address)) ∧
    bestFitAux 20
      [{ start_address := 0, size := 50, is_free := true, process_id := -1,
         arrival_time := -1, allocation_time := -1 },
       { start_address := 50, size := 10, is_free := false, process_id := 9,
         arrival_time := 0, allocation_time := 0 },
       { start_address := 60, size := 20, is_free := true, process_id := -1,
         arrival_time := -1, allocation_time := -1 },
       { start_address := 80, size := 5, is_free := false, process_id := 8,
         arrival_time := 0, allocation_time := 0 },
       { start_address := 85, size := 35, is_free := true, process_id := -1,
         arrival_time := -1, allocation_time := -1 }] 0 none =
      some (2, { start_address := 60, size := 20, is_free := true, process_id := -1,
                 arrival_time := -1, allocation_time := -1 }) := by
  refine ⟨bestFit_correct p.size st.blocks, ?_, ?_, by decide⟩
  · intro hnone
    have hab : allocBlocks st.blocks p.size p.pid p.arrival_time st.current_time = none := by
      unfold allocBlocks
      simp only [hnone]
    unfold allocate_memory
    simp only [hp, hab]
    exact ⟨trivial, trivial, trivial, trivial, trivial⟩
  · intro i b hfit
    have hab : ∃ bs', allocBlocks st.blocks p.size p.pid p.arrival_time st.current_time =
        some (bs', b.start_address) := by
      unfold allocBlocks
      simp only [hfit]
      split
      · exact ⟨_, rfl⟩
      · exact ⟨_, rfl⟩
    obtain ⟨bs', hab⟩ := hab
    unfold allocate_memory
    simp only [hp, hab]
    exact ⟨trivial, trivial⟩

theorem c2_best_fit_witness :
    ([({ pid := 7, size := 20, arrival_time := 0, allocated := false,
         allocation_time := -1, memory_address := -1, waiting_time := 0,
         execution_time := 2, remaining_time := 2, completed := false } : Process)][0]? =
      some { pid := 7, size := 20, arrival_time := 0, allocated := false,
             allocation_time := -1, memory_address := -1, waiting_time := 0,
             execution_time := 2, remaining_time := 2, completed := false }) ∧
    BestFitAt 20
      [{ start_address := 0, size := 100, is_free := true, process_id := -1,
         arrival_time := -1, allocation_time := -1 }]
      (bestFitAux 20
        [{ start_address := 0, size := 100, is_free := true, process_id := -1,
           arrival_time := -1, allocation_time := -1 }] 0 none) :=
  ⟨by decide,
    (c2_best_fit
      { blocks := [{ start_address := 0, size := 100, is_free := true, process_id := -1,
                     arrival_time := -1, allocation_time := -1 }],
        procs := [{ pid := 7, size := 20, arrival_time := 0, allocated := false,
                    allocation_time := -1, memory_address := -1, waiting_time := 0,
                    execution_time := 2, remaining_time := 2, completed := false }],
        waiting := [], allocated := [], current_time := 0, total_memory_size := 100,
        stats := { successful_allocations := 0, failed_allocations := 0,
                   completed_processes := 0, max_waiting_time := 0,
                   memory_utilization := 0 } }
      0 _ (by rfl)).1⟩

/-- C3: when the best-fit scan returns a region, the allocation
consumes the whole region in place exactly when its size is at most
the request plus the slack threshold 3 (so the process may own up to
`request + 3` units), and otherwise splits it, the low end
`[start, start+request)` allocated and the remainder
`[start+request, start+size)` left free; and no zero-length block is
ever left in the list (given the positive-size contract). -/
theorem c3_slack_split (st : SimState) (idx : Nat) (p : Process) (i : Nat) (b : MemoryBlock)
    (hp : st.procs[idx]? = some p)
    (hfit : bestFitAux p.size st.blocks 0 none = some (i, b)) :
    (b.size ≤ p.size + 3 →
      (allocate_memory st idx).2.blocks =
        st.blocks.set i
          { b with is_free := false, process_id := p.pid,
                   arrival_time := p.arrival_time,
                   allocation_time := st.current_time }) ∧
    (p.size + 3 < b.size →
      (allocate_memory st idx).2.blocks =
        st.blocks.take i ++
          [{ start_address := b.start_address, size := p.size, is_free := false,
             process_id := p.pid, arrival_time := p.arrival_time,
             allocation_time := st.current_time },
           { start_address := b.start_address + p.size, size := b.size - p.size,
             is_free := true, process_id := -1, arrival_time := -1,
             allocation_time := -1 }] ++ st.blocks.drop (i + 1) ∧
      0 < b.size - p.size) ∧
    ((∀ q ∈ st.blocks, 0 < q.size) → 0 < p.size →
      ∀ q ∈ (allocate_memory st idx).2.blocks, 0 < q.size) := by
  have hbf := bestFit_correct p.size st.blocks
  rw [hfit] at hbf
  obtain ⟨hib, hfree, hle, _, _⟩ := hbf
  have e1 : b.size ≤ p.size + 3 →
      (allocate_memory st idx).2.blocks =
        st.blocks.set i
          { b with is_free := false, process_id := p.pid,
                   arrival_time := p.arrival_time,
                   allocation_time := st.current_time } := by
    intro hc
    have hab : allocBlocks st.blocks p.size p.pid p.arrival_time st.current_time =
        some (st.blocks.set i
          { b with is_free := false, process_id := p.pid,
                   arrival_time := p.arrival_time,
                   allocation_time := st.current_time },
          b.start_address) := by
      unfold allocBlocks
      simp only [hfit]
      rw [if_pos hc]
    unfold allocate_memory
    simp only [hp, hab]
  have e2 : p.size + 3 < b.size →
      (allocate_memory st idx).2.blocks =
        st.blocks.take i ++
          [{ start_address := b.start_address, size := p.size, is_free := false,
             process_id := p.pid, arrival_time := p.arrival_time,
             allocation_time := st.current_time },
           { start_address := b.start_address + p.size, size := b.size - p.size,
             is_free := true, process_id := -1, arrival_time := -1,
             allocation_time := -1 }] ++ st.blocks.drop (i + 1) := by
    intro hc
    have hab : allocBlocks st.blocks p.size p.pid p.arrival_time st.current_time =
        some (st.blocks.take i ++
          [{ start_address := b.start_address, size := p.size, is_free := false,
             process_id := p.pid, arrival_time := p.arrival_time,
             allocation_time := st.current_time },
           { start_address := b.start_address + p.size, size := b.size - p.size,
             is_free := true, process_id := -1, arrival_time := -1,
             allocation_time := -1 }] ++ st.blocks.drop (i + 1),
          b.start_address) := by
      unfold allocBlocks
      simp only [hfit]
      rw [if_neg (by omega)]
    unfold allocate_memory
    simp only [hp, hab]
  refine ⟨e1, fun hc => ⟨e2 hc, by omega⟩, ?_⟩
  intro hq hpsz
  by_cases hc : b.size ≤ p.size + 3
  · rw [e1 hc]
    intro q hmem
    rcases List.mem_or_eq_of_mem_set hmem with hmem | rfl
    · exact hq q hmem
    · exact hq b (List.getElem?_mem hib)
  · rw [e2 (by omega)]
    intro q hmem
    rw [List.append_assoc, List.mem_append] at hmem
    rcases hmem with hmem | hmem
    · exact hq q (List.mem_of_mem_take hmem)
    · rcases hmem with _ | ⟨_, hmem⟩
      · exact hpsz
      · rcases hmem with _ | ⟨_, hmem⟩
        · simpa using Nat.sub_pos_of_lt (by omega)
        · exact hq q (List.mem_of_mem_drop hmem)

theorem c3_slack_split_witness :
    ([({ pid := 7, size := 20, arrival_time := 0, allocated := false,
         allocation_time := -1, memory_address := -1, waiting_time := 0,
         execution_time := 2, remaining_time := 2, completed := false } : Process)][0]? =
      some { pid := 7, size := 20, arrival_time := 0, allocated := false,
             allocation_time := -1, memory_address := -1, waiting_time := 0,
             execution_time := 2, remaining_time := 2, completed := false }) ∧
    (20 : Nat) + 3 < 100 ∧
    (allocate_memory
      { blocks := [{ start_address := 0, size := 100, is_free := true, process_id := -1,
                     arrival_time := -1, allocation_time := -1 }],
        procs := [{ pid := 7, size := 20, arrival_time := 0, allocated := false,
                    allocation_time := -1, memory_address := -1, waiting_time := 0,
                    execution_time := 2, remaining_time := 2, completed := false }],
        waiting := [], allocated := [], current_time := 0, total_memory_size := 100,
        stats := { successful_allocations := 0, failed_allocations := 0,
                   completed_processes := 0, max_waiting_time := 0,
                   memory_utilization := 0 } } 0).2.blocks =
      [{ start_address := 0, size := 100, is_free := true, process_id := -1,
         arrival_time := -1, allocation_time := -1 }].take 0 ++
        [{ start_address := 0, size := 20, is_free := false, process_id := 7,
           arrival_time := 0, allocation_time := 0 },
         { start_address := 0 + 20, size := 100 - 20, is_free := true, process_id := -1,
           arrival_time := -1, allocation_time := -1 }] ++
        [{ start_address := 0, size := 100, is_free := true, process_id := -1,
           arrival_time := -1, allocation_time := -1 }].drop (0 + 1) := by
  refine ⟨by decide, by decide, ?_⟩
  exact ((c3_slack_split
    { blocks := [{ start_address := 0, size := 100, is_free := true, process_id := -1,
                   arrival_time := -1, allocation_time := -1 }],
      procs := [{ pid := 7, size := 20, arrival_time := 0, allocated := false,
                  allocation_time := -1, memory_address := -1, waiting_time := 0,
                  execution_time := 2, remaining_time := 2, completed := false }],
      waiting := [], allocated := [], current_time := 0, total_memory_size := 100,
      stats := { successful_allocations := 0, failed_allocations := 0,
                 completed_processes := 0, max_waiting_time := 0,
                 memory_utilization := 0 } } 0
    { pid := 7, size := 20, arrival_time := 0, allocated := false,
      allocation_time := -1, memory_address := -1, waiting_time := 0,
      execution_time := 2, remaining_time := 2, completed := false } 0
    { start_address := 0, size := 100, is_free := true, process_id := -1,
      arrival_time := -1, allocation_time := -1 }
    (by rfl) (by rfl)).2.1 (by decide)).1

/-! ### Claim C4: coalescing -/

/-- C4 (counterexample): the claim fails on the code.  In the
src/final.c variant the free list is unordered (deallocation pushes the
freed block at the front) and `merge_free_blocks` examines only
list-consecutive pairs, so a single call on the reachable free list
`[(10,10), (0,10), (20,1004)]` (pool 1024; allocate 10, allocate 10,
then deallocate both) merges nothing even though the three regions are
pairwise address-adjacent, while the same regions in sorted order merge
to one block — the result is not independent of list order, and an
address-adjacent free pair remains after the call. -/
theorem c4_coalesce_counterexample :
    FinalC.merge_free_blocks
        [{ start := 10, size := 10 }, { start := 0, size := 10 },
         { start := 20, size := 1004 }] =
      [{ start := 10, size := 10 }, { start := 0, size := 10 },
       { start := 20, size := 1004 }] ∧
    FinalC.hasAdjacentPair
        [{ start := 10, size := 10 }, { start := 0, size := 10 },
         { start := 20, size := 1004 }] = true ∧
    FinalC.merge_free_blocks
        [{ start := 0, size := 10 }, { start := 10, size := 10 },
         { start := 20, size := 1004 }] =
      [{ start := 0, size := 1024 }] := by
  refine ⟨?_, by decide, ?_⟩ <;> rfl

/-- C4 (amended): on the sorted, exactly-tiling block lists that
src/test.c maintains, one `merge_free_blocks` call preserves the tiling
and leaves no two consecutive free blocks — in particular every
address-adjacent free pair is merged and chains of three or more
consecutive free regions collapse in the single call (shown concretely
for sizes `[10,10,10]`); but the merge examines only list-consecutive
pairs, so on an unordered list (the src/final.c variant) the result
depends on the order of the list. -/
theorem c4_coalesce_amended (N : Nat) (bs : List MemoryBlock) (h : tiles N bs = true) :
    tiles N (merge_free_blocks bs) = true ∧
    noAdjacentFreePair (merge_free_blocks bs) = true ∧
    (∀ b1 ∈ merge_free_blocks bs, ∀ b2 ∈ merge_free_blocks bs,
      b1.is_free = true → b2.is_free = true →
      b1.start_address + b1.size ≠ b2.start_address) ∧
    merge_free_blocks
        [{ start_address := 0, size := 10, is_free := true, process_id := -1,
           arrival_time := -1, allocation_time := -1 },
         { start_address := 10, size := 10, is_free := true, process_id := -1,
           arrival_time := -1, allocation_time := -1 },
         { start_address := 20, size := 10, is_free := true, process_id := -1,
           arrival_time := -1, allocation_time := -1 }] =
      [{ start_address := 0, size := 30, is_free := true, process_id := -1,
         arrival_time := -1, allocation_time := -1 }] := by
  have ht := merge_free_blocks_tiles bs h
  have hna := merge_free_blocks_noAdjacentFreePair bs
  exact ⟨ht, hna, tiles_no_addr_adjacent_free (merge_free_blocks bs) 0 ht hna, rfl⟩

theorem c4_coalesce_amended_witness :
    tiles 40
      [{ start_address := 0, size := 5, is_free := false, process_id := 3,
         arrival_time := 0, allocation_time := 0 },
       { start_address := 5, size := 10, is_free := true, process_id := -1,
         arrival_time := -1, allocation_time := -1 },
       { start_address := 15, size := 10, is_free := true, process_id := -1,
         arrival_time := -1, allocation_time := -1 },
       { start_address := 25, size := 15, is_free := true, process_id := -1,
         arrival_time := -1, allocation_time := -1 }] = true ∧
    noAdjacentFreePair (merge_free_blocks
      [{ start_address := 0, size := 5, is_free := false, process_id := 3,
         arrival_time := 0, allocation_time := 0 },
       { start_address := 5, size := 10, is_free := true, process_id := -1,
         arrival_time := -1, allocation_time := -1 },
       { start_address := 15, size := 10, is_free := true, process_id := -1,
         arrival_time := -1, allocation_time := -1 },
       { start_address := 25, size := 15, is_free := true, process_id := -1,
         arrival_time := -1, allocation_time := -1 }]) = true :=
  ⟨by decide,
    (c4_coalesce_amended 40
      [{ start_address := 0, size := 5, is_free := false, process_id := 3,
         arrival_time := 0, allocation_time := 0 },
       { start_address := 5, size := 10, is_free := true, process_id := -1,
         arrival_time := -1, allocation_time := -1 },
       { start_address := 15, size := 10, is_free := true, process_id := -1,
         arrival_time := -1, allocation_time := -1 },
       { start_address := 25, size := 15, is_free := true, process_id := -1,
         arrival_time := -1, allocation_time := -1 }] (by decide)).2.1⟩

/-! ### Claim C7: allocate/deallocate round trip -/

/-- C7: on a pool whose block list is a single free region, allocating
any placeable process and immediately deallocating it restores the free
list exactly, region for region (same starts, lengths and free status),
in both the consume-whole-region case and the split case. -/
theorem c7_round_trip (st : SimState) (idx : Nat) (p : Process) (b0 : MemoryBlock)
    (hb : st.blocks = [b0]) (hfree : b0.is_free = true)
    (hp : st.procs[idx]? = some p) (hpos : 0 < p.size) (hle : p.size ≤ b0.size) :
    (allocate_memory st idx).1 = true ∧
    (deallocate_memory (allocate_memory st idx).2 p.pid).blocks.map blockShape =
      st.blocks.map blockShape := by
  have hfit : bestFitAux p.size st.blocks 0 none = some (0, b0) := by
    rw [hb]
    simp [bestFitAux, bestFitBody, hfree, hle]
  by_cases hc : b0.size ≤ p.size + 3
  · obtain ⟨h1, h2⟩ := allocate_consume st idx p 0 b0 hp hfit hc
    rw [hb] at h2
    simp only [List.set_cons_zero] at h2
    refine ⟨h1, ?_⟩
    have hff : freeFirstBlock p.pid (allocate_memory st idx).2.blocks =
        some [{ start_address := b0.start_address, size := b0.size, is_free := true,
                process_id := -1, arrival_time := p.arrival_time,
                allocation_time := -1 }] := by
      rw [h2]
      simp [freeFirstBlock]
    rw [deallocate_memory_blocks _ _ _ hff, hb]
    simp [merge_free_blocks, mergeAux, blockShape, hfree]
  · obtain ⟨h1, h2⟩ := allocate_split st idx p 0 b0 hp hfit (by omega)
    rw [hb] at h2
    simp only [List.take_zero, List.drop_succ_cons, List.drop_zero, List.nil_append,
      List.cons_append, List.append_nil] at h2
    refine ⟨h1, ?_⟩
    have hff : freeFirstBlock p.pid (allocate_memory st idx).2.blocks =
        some [{ start_address := b0.start_address, size := p.size, is_free := true,
                process_id := -1, arrival_time := p.arrival_time,
                allocation_time := -1 },
              { start_address := b0.start_address + p.size, size := b0.size - p.size,
                is_free := true, process_id := -1, arrival_time := -1,
                allocation_time := -1 }] := by
      rw [h2]
      simp [freeFirstBlock]
    rw [deallocate_memory_blocks _ _ _ hff, hb]
    simp only [merge_free_blocks, mergeAux, Bool.and_self, if_pos]
    simp only [List.map_cons, List.map_nil, blockShape, hfree]
    have harith : p.size + (b0.size - p.size) = b0.size := by omega
    rw [harith]

theorem c7_round_trip_witness :
    (([{ start_address := 0, size := 100, is_free := true, process_id := -1,
         arrival_time := -1, allocation_time := -1 }] : List MemoryBlock) =
      [{ start_address := 0, size := 100, is_free := true, process_id := -1,
         arrival_time := -1, allocation_time := -1 }]) ∧
    (deallocate_memory
      (allocate_memory
        { blocks := [{ start_address := 0, size := 100, is_free := true, process_id := -1,
                       arrival_time := -1, allocation_time := -1 }],
          procs := [{ pid := 7, size := 20, arrival_time := 0, allocated := false,
                      allocation_time := -1, memory_address := -1, waiting_time := 0,
                      execution_time := 2, remaining_time := 2, completed := false }],
          waiting := [], allocated := [], current_time := 0, total_memory_size := 100,
          stats := { successful_allocations := 0, failed_allocations := 0,
                     completed_processes := 0, max_waiting_time := 0,
                     memory_utilization := 0 } } 0).2 7).blocks.map blockShape =
      [{ start_address := 0, size := 100, is_free := true, process_id := -1,
         arrival_time := -1, allocation_time := -1 }].map blockShape :=
  ⟨rfl,
    (c7_round_trip
      { blocks := [{ start_address := 0, size := 100, is_free := true, process_id := -1,
                     arrival_time := -1, allocation_time := -1 }],
        procs := [{ pid := 7, size := 20, arrival_time := 0, allocated := false,
                    allocation_time := -1, memory_address := -1, waiting_time := 0,
                    execution_time := 2, remaining_time := 2, completed := false }],
        waiting := [], allocated := [], current_time := 0, total_memory_size := 100,
        stats := { successful_allocations := 0, failed_allocations := 0,
                   completed_processes := 0, max_waiting_time := 0,
                   memory_utilization := 0 } } 0
      { pid := 7, size := 20, arrival_time := 0, allocated := false,
        allocation_time := -1, memory_address := -1, waiting_time := 0,
        execution_time := 2, remaining_time := 2, completed := false }
      { start_address := 0, size := 100, is_free := true, process_id := -1,
        arrival_time := -1, allocation_time := -1 }
      rfl rfl rfl (by decide) (by decide)).2⟩

/-! ### Claim C8: the waiting-queue retry pass -/

theorem checkWaitingAux_eq_retrySpec :
    ∀ (fuel : Nat) (st : SimState) (q : List Nat) (i n : Nat),
      q.length - i < fuel →
      checkWaitingAux fuel st q i n =
        ((retrySpec st (q.drop i)).1,
         q.take i ++ (retrySpec st (q.drop i)).2.1,
         n + (retrySpec st (q.drop i)).2.2) := by
  intro fuel
  induction fuel with
  | zero => intro st q i n hf; exact absurd hf (Nat.not_lt_zero _)
  | succ fuel ih =>
      intro st q i n hf
      simp only [checkWaitingAux]
      split
      · rename_i h
        have hdrop : q.drop i = q[i] :: q.drop (i + 1) := List.drop_eq_getElem_cons h
        have hget : q.get ⟨i, h⟩ = q[i] := List.get_eq_getElem q ⟨i, h⟩
        rw [hget, hdrop]
        simp only [retrySpec]
        split
        · rename_i hr
          have hlen : (q.take i ++ q.drop (i + 1)).length - i < fuel := by
            rw [List.length_append, List.length_take, List.length_drop]
            omega
          rw [ih _ _ i (n + 1) hlen]
          have htake : (q.take i ++ q.drop (i + 1)).take i = q.take i :=
            List.take_left' (by rw [List.length_take]; omega)
          have hdrop2 : (q.take i ++ q.drop (i + 1)).drop i = q.drop (i + 1) :=
            List.drop_left' (by rw [List.length_take]; omega)
          rw [htake, hdrop2]
          have harith : n + 1 + (retrySpec (allocate_memory st q[i]).2 (q.drop (i + 1))).2.2 =
              n + ((retrySpec (allocate_memory st q[i]).2 (q.drop (i + 1))).2.2 + 1) := by
            omega
          rw [harith]
        · rename_i hr
          have hlen : q.length - (i + 1) < fuel := by omega
          rw [ih _ _ (i + 1) n hlen]
          have htake : q.take (i + 1) = q.take i ++ [q[i]] := by
            rw [List.take_succ]
            simp [List.getElem?_eq_getElem h]
          rw [htake, List.append_assoc]
          rfl
      · rename_i h
        have hdrop : q.drop i = [] := List.drop_eq_nil_of_le (by omega)
        have htake : q.take i = q := List.take_of_length_le (by omega)
        rw [hdrop, htake]
        simp [retrySpec]

theorem retrySpec_count :
    ∀ (q : List Nat) (st : SimState),
      (retrySpec st q).2.1.length + (retrySpec st q).2.2 = q.length := by
  intro q
  induction q with
  | nil => intro st; simp [retrySpec]
  | cons idx rest ih =>
      intro st
      simp only [retrySpec]
      split
      · simp only [List.length_cons]
        have := ih (allocate_memory st idx).2
        omega
      · simp only [List.length_cons]
        have := ih (allocate_memory st idx).2
        omega

/-- C8: the retry pass of `check_waiting_processes` attempts placement
for each waiting-queue member exactly once, in queue order: it computes
exactly the reference pass `retrySpec`, which tries members front to
back, removes each success, keeps each failure in place (so the
relative order of the remaining members is preserved and no member is
skipped or attempted twice), and counts the placements; the count plus
the number of survivors equals the original queue length. -/
theorem c8_retry_pass (st : SimState) (q : List Nat) :
    checkWaitingAux (q.length + 1) st q 0 0 =
      ((retrySpec st q).1, (retrySpec st q).2.1, (retrySpec st q).2.2) ∧
    (retrySpec st q).2.1.length + (retrySpec st q).2.2 = q.length ∧
    check_waiting_processes st =
      { (retrySpec st st.waiting).1 with waiting := (retrySpec st st.waiting).2.1 } := by
  refine ⟨?_, retrySpec_count q st, ?_⟩
  · have h := checkWaitingAux_eq_retrySpec (q.length + 1) st q 0 0 (by omega)
    simpa using h
  · unfold check_waiting_processes
    split
    · rename_i hw
      have hnil : st.waiting = [] := by
        rwa [beq_iff_eq, List.length_eq_zero] at hw
      rw [hnil]
      simp only [retrySpec]
      cases st
      simp_all
    · have h := checkWaitingAux_eq_retrySpec (st.waiting.length + 1) st st.waiting 0 0
        (by omega)
      rw [h]
      simp

/-! ### Claim C5: tick phase order -/

/-- C5: a tick performs, in this fixed order: the completion phase
(decrement every allocated process's remaining time; a process reaching
0 is deallocated and marked completed immediately), then the
waiting-queue retry pass, then the statistics sample — so memory freed
by a completion is available to waiting processes retried in the same
tick.  The second conjunct shows this observably: process 1 (remaining
time 1) owns the whole pool of 100 and process 2 (size 50) waits;
after one `simulate_time_step`, process 1 is completed with remaining
time 0 and process 2 is already allocated at address 0 in that same
tick, the waiting queue is empty, and the freed memory has been split
for process 2. -/
theorem c5_tick_phases :
    (∀ st : SimState, simulate_time_step st =
      calculate_memory_utilization
        (check_waiting_processes
          (check_process_completion { st with current_time := st.current_time + 1 }))) ∧
    ((simulate_time_step
      { blocks := [{ start_address := 0, size := 100, is_free := false, process_id := 1,
                     arrival_time := 0, allocation_time := 0 }],
        procs := [{ pid := 1, size := 100, arrival_time := 0, allocated := true,
                    allocation_time := 0, memory_address := 0, waiting_time := 0,
                    execution_time := 1, remaining_time := 1, completed := false },
                  { pid := 2, size := 50, arrival_time := 0, allocated := false,
                    allocation_time := -1, memory_address := -1, waiting_time := 0,
                    execution_time := 3, remaining_time := 3, completed := false }],
        waiting := [1], allocated := [1], current_time := 0, total_memory_size := 100,
        stats := { successful_allocations := 0, failed_allocations := 0,
                   completed_processes := 0, max_waiting_time := 0,
                   memory_utilization := 0 } }).procs.map
        (fun p => (p.pid, p.completed, p.allocated, p.remaining_time, p.memory_address)) =
      [(1, true, true, 0, 0), (2, false, true, 3, 0)]) ∧
    ((simulate_time_step
      { blocks := [{ start_address := 0, size := 100, is_free := false, process_id := 1,
                     arrival_time := 0, allocation_time := 0 }],
        procs := [{ pid := 1, size := 100, arrival_time := 0, allocated := true,
                    allocation_time := 0, memory_address := 0, waiting_time := 0,
                    execution_time := 1, remaining_time := 1, completed := false },
                  { pid := 2, size := 50, arrival_time := 0, allocated := false,
                    allocation_time := -1, memory_address := -1, waiting_time := 0,
                    execution_time := 3, remaining_time := 3, completed := false }],
        waiting := [1], allocated := [1], current_time := 0, total_memory_size := 100,
        stats := { successful_allocations := 0, failed_allocations := 0,
                   completed_processes := 0, max_waiting_time := 0,
                   memory_utilization := 0 } }).blocks.map
        (fun b => (b.start_address, b.size, b.is_free, b.process_id)) =
      [(0, 50, false, 2), (50, 50, true, -1)]) ∧
    ((simulate_time_step
      { blocks := [{ start_address := 0, size := 100, is_free := false, process_id := 1,
                     arrival_time := 0, allocation_time := 0 }],
        procs := [{ pid := 1, size := 100, arrival_time := 0, allocated := true,
                    allocation_time := 0, memory_address := 0, waiting_time := 0,
                    execution_time := 1, remaining_time := 1, completed := false },
                  { pid := 2, size := 50, arrival_time := 0, allocated := false,
                    allocation_time := -1, memory_address := -1, waiting_time := 0,
                    execution_time := 3, remaining_time := 3, completed := false }],
        waiting := [1], allocated := [1], current_time := 0, total_memory_size := 100,
        stats := { successful_allocations := 0, failed_allocations := 0,
                   completed_processes := 0, max_waiting_time := 0,
                   memory_utilization := 0 } }).waiting = []) ∧
    ((simulate_time_step
      { blocks := [{ start_address := 0, size := 100, is_free := false, process_id := 1,
                     arrival_time := 0, allocation_time := 0 }],
        procs := [{ pid := 1, size := 100, arrival_time := 0, allocated := true,
                    allocation_time := 0, memory_address := 0, waiting_time := 0,
                    execution_time := 1, remaining_time := 1, completed := false },
                  { pid := 2, size := 50, arrival_time := 0, allocated := false,
                    allocation_time := -1, memory_address := -1, waiting_time := 0,
                    execution_time := 3, remaining_time := 3, completed := false }],
        waiting := [1], allocated := [1], current_time := 0, total_memory_size := 100,
        stats := { successful_allocations := 0, failed_allocations := 0,
                   completed_processes := 0, max_waiting_time := 0,
                   memory_utilization := 0 } }).allocated = [2]) :=
  ⟨fun st => rfl, by decide, by decide, by decide, by decide⟩

/-! ### Claims C6 and C10: the paging variant -/

namespace Paging

theorem findFreeFrame_none :
    ∀ (frames : List Frame) (k : Nat), findFreeFrame frames k = none →
      ∀ f ∈ frames, f.allocated = true := by
  intro frames
  induction frames with
  | nil => intro k _ f hf; simp at hf
  | cons g rest ih =>
      intro k h f hf
      simp only [findFreeFrame] at h
      split at h
      · cases h
      · rename_i hg
        rw [List.mem_cons] at hf
        rcases hf with rfl | hf
        · simpa using hg
        · exact ih (k + 1) h f hf

theorem findFreeFrame_some :
    ∀ (frames : List Frame) (k j : Nat), findFreeFrame frames k = some j →
      k ≤ j ∧ ∃ f, frames[j - k]? = some f ∧ f.allocated = false := by
  intro frames
  induction frames with
  | nil => intro k j h; simp [findFreeFrame] at h
  | cons g rest ih =>
      intro k j h
      simp only [findFreeFrame] at h
      split at h
      · rename_i hg
        cases h
        refine ⟨le_refl _, g, ?_, by simpa using hg⟩
        simp
      · obtain ⟨hkj, f, hf, hfa⟩ := ih (k + 1) j h
        refine ⟨by omega, f, ?_, hfa⟩
        have : j - k = (j - (k + 1)) + 1 := by omega
        rw [this]
        simpa using hf

theorem freeFrameCount_zero (frames : List Frame)
    (h : ∀ f ∈ frames, f.allocated = true) : freeFrameCount frames = 0 := by
  unfold freeFrameCount
  rw [List.length_eq_zero, List.filter_eq_nil_iff]
  intro f hf
  simp [h f hf]

theorem freeFrameCount_pos (frames : List Frame) (j : Nat) (f : Frame)
    (hj : frames[j]? = some f) (hf : f.allocated = false) :
    1 ≤ freeFrameCount frames := by
  unfold freeFrameCount
  have hmem : f ∈ frames.filter fun g => !g.allocated := by
    rw [List.mem_filter]
    exact ⟨List.getElem?_mem hj, by simp [hf]⟩
  exact List.length_pos.mpr (fun hnil => by simp [hnil] at hmem)

theorem freeFrameCount_set (pid : Int) :
    ∀ (frames : List Frame) (j : Nat) (f : Frame),
      frames[j]? = some f → f.allocated = false →
      freeFrameCount (frames.set j { allocated := true, owner := pid }) + 1 =
        freeFrameCount frames := by
  intro frames
  induction frames with
  | nil => intro j f h; simp at h
  | cons g rest ih =>
      intro j f h hf
      cases j with
      | zero =>
          simp only [List.getElem?_cons_zero, Option.some.injEq] at h
          subst h
          simp [freeFrameCount, List.filter, hf]
      | succ j =>
          simp only [List.getElem?_cons_succ] at h
          simp only [List.set_cons_succ]
          unfold freeFrameCount at ih ⊢
          rcases Bool.eq_false_or_eq_true g.allocated with hg | hg <;>
            simp [List.filter, hg, ← ih j f h hf]

theorem ownedFrameCount_set (pid : Int) :
    ∀ (frames : List Frame) (j : Nat) (f : Frame),
      frames[j]? = some f → f.allocated = false →
      ownedFrameCount pid (frames.set j { allocated := true, owner := pid }) =
        ownedFrameCount pid frames + 1 := by
  intro frames
  induction frames with
  | nil => intro j f h; simp at h
  | cons g rest ih =>
      intro j f h hf
      cases j with
      | zero =>
          simp only [List.getElem?_cons_zero, Option.some.injEq] at h
          subst h
          simp [ownedFrameCount, List.filter, hf]
      | succ j =>
          simp only [List.getElem?_cons_succ] at h
          simp only [List.set_cons_succ]
          unfold ownedFrameCount at ih ⊢
          rcases Bool.eq_false_or_eq_true (g.allocated && g.owner == pid) with hg | hg <;>
            simp [List.filter, hg, ih j f h hf]

theorem allocate_framesAux_counts (pid : Int) :
    ∀ (entries : List PageTableEntry) (frames : List Frame),
      (allocate_framesAux pid frames entries).2.2 =
        min entries.length (freeFrameCount frames) ∧
      freeFrameCount (allocate_framesAux pid frames entries).1 =
        freeFrameCount frames - (allocate_framesAux pid frames entries).2.2 ∧
      ownedFrameCount pid (allocate_framesAux pid frames entries).1 =
        ownedFrameCount pid frames + (allocate_framesAux pid frames entries).2.2 := by
  intro entries
  induction entries with
  | nil => intro frames; simp [allocate_framesAux]
  | cons e es ih =>
      intro frames
      simp only [allocate_framesAux]
      rcases hff : findFreeFrame frames 0 with _ | j
      · have hall := findFreeFrame_none frames 0 hff
        have hzero := freeFrameCount_zero frames hall
        simp [hzero]
      · obtain ⟨_, f, hf, hfa⟩ := findFreeFrame_some frames 0 j hff
        simp only [Nat.sub_zero] at hf
        have hcnt := freeFrameCount_set pid frames j f hf hfa
        have hown := ownedFrameCount_set pid frames j f hf hfa
        have hpos := freeFrameCount_pos frames j f hf hfa
        obtain ⟨ih1, ih2, ih3⟩ := ih (frames.set j { allocated := true, owner := pid })
        simp only []
        refine ⟨?_, ?_, ?_⟩
        · rw [ih1]
          simp only [List.length_cons]
          omega
        · rw [ih2, ih1]
          omega
        · rw [ih3, ih1, hown]
          omega

theorem create_page_table_length (pid : Int) (pages : Nat) :
    (create_page_table pid pages).entries.length = pages := by
  simp [create_page_table]

end Paging

namespace Paging

/-- C6 (counterexample): the claim fails on the code.  With every frame
allocated (zero free frames) and a process of size 300 (above the
partition ceiling 256, hence 75 pages needed), `allocate_with_paging`
frees its fresh page table and returns false, `handle_process` fails,
and `add_process` places the process in the waiting queue — so a
process whose size exceeds the ceiling and finds fewer free frames than
needed is not always "marked allocated with a partial page set": at
zero free frames it is rejected and it does wait. -/
theorem c6_paging_counterexample :
    MAX_PARTITION_SIZE < 300 ∧
    freeFrameCount [{ allocated := true, owner := 9 }, { allocated := true, owner := 9 }]
      = 0 ∧
    ((300 : Nat) + PAGE_SIZE - 1) / PAGE_SIZE = 75 ∧
    (allocate_with_paging
      { blocks := [{ start_address := 0, size := 8, is_free := false, process_id := 9,
                     arrival_time := 0, allocation_time := 0 }],
        frames := [{ allocated := true, owner := 9 }, { allocated := true, owner := 9 }],
        procs := [{ pid := 5, size := 300, arrival_time := 0, allocated := false,
                    allocation_time := -1, memory_address := -1, uses_paging := false,
                    page_table := none }],
        waiting := [], allocated := [9], current_time := 0,
        total_memory_size := 8 } 0).1 = false ∧
    (handle_process
      { blocks := [{ start_address := 0, size := 8, is_free := false, process_id := 9,
                     arrival_time := 0, allocation_time := 0 }],
        frames := [{ allocated := true, owner := 9 }, { allocated := true, owner := 9 }],
        procs := [{ pid := 5, size := 300, arrival_time := 0, allocated := false,
                    allocation_time := -1, memory_address := -1, uses_paging := false,
                    page_table := none }],
        waiting := [], allocated := [9], current_time := 0,
        total_memory_size := 8 } 0).1 = false ∧
    (add_process
      { blocks := [{ start_address := 0, size := 8, is_free := false, process_id := 9,
                     arrival_time := 0, allocation_time := 0 }],
        frames := [{ allocated := true, owner := 9 }, { allocated := true, owner := 9 }],
        procs := [{ pid := 5, size := 300, arrival_time := 0, allocated := false,
                    allocation_time := -1, memory_address := -1, uses_paging := false,
                    page_table := none }],
        waiting := [], allocated := [9], current_time := 0,
        total_memory_size := 8 } 0).2.waiting = [0] := by
  refine ⟨by decide, by decide, by decide, ?_, ?_, ?_⟩ <;> rfl

/-- C6 (amended): for a process whose size exceeds the partition
ceiling, placement goes through the frame table with the size rounded
up to whole pages; if at least one frame is free the process is marked
allocated with a page table of the full page count and exactly
`min pages_needed free_frames` frames are claimed (a partial page set
when fewer frames are free than needed, without rejection); but when no
frame is free the placement fails and the state is unchanged (the
caller then enqueues the process to the waiting queue). -/
theorem c6_paging_amended (st : PState) (idx : Nat) (p : Process)
    (hp : st.procs[idx]? = some p) (hbig : MAX_PARTITION_SIZE < p.size) :
    (freeFrameCount st.frames = 0 → handle_process st idx = (false, st)) ∧
    (0 < freeFrameCount st.frames →
      (handle_process st idx).1 = true ∧
      (∃ pt : ProcessPageTable,
        (handle_process st idx).2.procs[idx]? =
          some { p with allocated := true, allocation_time := st.current_time,
                        uses_paging := true, page_table := some pt } ∧
        pt.total_pages = (p.size + PAGE_SIZE - 1) / PAGE_SIZE) ∧
      ownedFrameCount p.pid (handle_process st idx).2.frames =
        ownedFrameCount p.pid st.frames +
          min ((p.size + PAGE_SIZE - 1) / PAGE_SIZE) (freeFrameCount st.frames) ∧
      freeFrameCount (handle_process st idx).2.frames =
        freeFrameCount st.frames -
          min ((p.size + PAGE_SIZE - 1) / PAGE_SIZE) (freeFrameCount st.frames)) := by
  have hne : ¬ p.size ≤ MAX_PARTITION_SIZE := Nat.not_le.mpr hbig
  have hpages : 1 ≤ (p.size + PAGE_SIZE - 1) / PAGE_SIZE := by
    have h4 : (PAGE_SIZE : Nat) = 4 := rfl
    rw [h4]
    rw [Nat.le_div_iff_mul_le (by omega)]
    have : MAX_PARTITION_SIZE = 256 := rfl
    omega
  have hlen : (create_page_table p.pid ((p.size + PAGE_SIZE - 1) / PAGE_SIZE)).entries.length
      = (p.size + PAGE_SIZE - 1) / PAGE_SIZE :=
    create_page_table_length p.pid _
  obtain ⟨hc1, hc2, hc3⟩ := allocate_framesAux_counts p.pid
    (create_page_table p.pid ((p.size + PAGE_SIZE - 1) / PAGE_SIZE)).entries st.frames
  rw [hlen] at hc1
  have hpt : (create_page_table p.pid ((p.size + PAGE_SIZE - 1) / PAGE_SIZE)).process_id
      = p.pid := rfl
  have hcount : (allocate_frames st.frames
      (create_page_table p.pid ((p.size + PAGE_SIZE - 1) / PAGE_SIZE))).2.2 =
      min ((p.size + PAGE_SIZE - 1) / PAGE_SIZE) (freeFrameCount st.frames) := by
    unfold allocate_frames
    rw [hpt]
    exact hc1
  constructor
  · intro hzero
    have hnone : ¬ (0 < (allocate_frames st.frames
        (create_page_table p.pid ((p.size + PAGE_SIZE - 1) / PAGE_SIZE))).2.2) := by
      rw [hcount, hzero]
      simp
    have hawp : allocate_with_paging st idx = (false, st) := by
      unfold allocate_with_paging
      simp only [hp]
      rw [if_neg hnone]
    unfold handle_process
    simp only [hp]
    rw [if_neg hne, hawp]
    rfl
  · intro hpos
    have hsome : 0 < (allocate_frames st.frames
        (create_page_table p.pid ((p.size + PAGE_SIZE - 1) / PAGE_SIZE))).2.2 := by
      rw [hcount]
      omega
    have hawp : allocate_with_paging st idx =
        (true, { st with
          frames := (allocate_frames st.frames
            (create_page_table p.pid ((p.size + PAGE_SIZE - 1) / PAGE_SIZE))).1,
          procs := st.procs.set idx
            { p with allocated := true, allocation_time := st.current_time,
                     uses_paging := true,
                     page_table := some (allocate_frames st.frames
                       (create_page_table p.pid
                         ((p.size + PAGE_SIZE - 1) / PAGE_SIZE))).2.1 },
          allocated := st.allocated ++ [p.pid] }) := by
      unfold allocate_with_paging
      simp only [hp]
      rw [if_pos hsome]
    have hhp : handle_process st idx = allocate_with_paging st idx := by
      unfold handle_process
      simp only [hp]
      rw [if_neg hne, hawp]
      rfl
    rw [hhp, hawp]
    have hidx : idx < st.procs.length := (List.getElem?_eq_some.mp hp).1
    refine ⟨rfl, ?_, ?_, ?_⟩
    · refine ⟨(allocate_frames st.frames
        (create_page_table p.pid ((p.size + PAGE_SIZE - 1) / PAGE_SIZE))).2.1, ?_, ?_⟩
      · exact List.getElem?_set_eq_of_lt _ hidx
      · rfl
    · unfold allocate_frames
      rw [hpt]
      rw [hc3, hc1]
    · unfold allocate_frames
      rw [hpt]
      rw [hc2, hc1]

theorem c6_paging_amended_witness :
    (([({ pid := 5, size := 300, arrival_time := 0, allocated := false,
          allocation_time := -1, memory_address := -1, uses_paging := false,
          page_table := none } : Process)])[0]? =
      some { pid := 5, size := 300, arrival_time := 0, allocated := false,
             allocation_time := -1, memory_address := -1, uses_paging := false,
             page_table := none }) ∧
    MAX_PARTITION_SIZE < 300 ∧
    (handle_process
      { blocks := [{ start_address := 0, size := 16, is_free := true, process_id := -1,
                     arrival_time := -1, allocation_time := -1 }],
        frames := [{ allocated := false, owner := -1 }, { allocated := true, owner := 9 },
                   { allocated := false, owner := -1 }, { allocated := false, owner := -1 }],
        procs := [{ pid := 5, size := 300, arrival_time := 0, allocated := false,
                    allocation_time := -1, memory_address := -1, uses_paging := false,
                    page_table := none }],
        waiting := [], allocated := [9], current_time := 0,
        total_memory_size := 16 } 0).1 = true :=
  ⟨rfl, by decide,
    ((c6_paging_amended
      { blocks := [{ start_address := 0, size := 16, is_free := true, process_id := -1,
                     arrival_time := -1, allocation_time := -1 }],
        frames := [{ allocated := false, owner := -1 }, { allocated := true, owner := 9 },
                   { allocated := false, owner := -1 }, { allocated := false, owner := -1 }],
        procs := [{ pid := 5, size := 300, arrival_time := 0, allocated := false,
                    allocation_time := -1, memory_address := -1, uses_paging := false,
                    page_table := none }],
        waiting := [], allocated := [9], current_time := 0,
        total_memory_size := 16 } 0
      { pid := 5, size := 300, arrival_time := 0, allocated := false,
        allocation_time := -1, memory_address := -1, uses_paging := false,
        page_table := none }
      rfl (by decide)).2 (by decide)).1⟩

/-- C10: `deallocate_paged_process` frees all and only the frames of
`pid`: in the frame table it produces, no frame is owned by `pid`,
every frame that was allocated to `pid` is now free with owner `-1`,
and every other frame is exactly as before; and the frame table of
`deallocate_paged_process` is exactly this frame sweep.  The
hypothesis is the frame-table invariant of src/test2.c (a frame that
is not allocated has owner `-1`) and that `pid` is a real process id
(not the `-1` sentinel). -/
theorem c10_paged_dealloc_frames (pid : Int) (frames : List Frame)
    (hclean : ∀ f ∈ frames, f.allocated = false → f.owner = -1) (hpid : pid ≠ -1) :
    (∀ f ∈ deallocate_paged_frames pid frames, f.owner ≠ pid) ∧
    (∀ (i : Nat) (f : Frame), frames[i]? = some f → f.owner = pid →
      (deallocate_paged_frames pid frames)[i]? =
        some { allocated := false, owner := -1 }) ∧
    (∀ (i : Nat) (f : Frame), frames[i]? = some f → f.owner ≠ pid →
      (deallocate_paged_frames pid frames)[i]? = some f) ∧
    (∀ st : PState, (deallocate_paged_process st pid).frames =
      deallocate_paged_frames pid st.frames) := by
  refine ⟨?_, ?_, ?_, fun st => rfl⟩
  · intro f hf
    unfold deallocate_paged_frames at hf
    rw [List.mem_map] at hf
    obtain ⟨g, hg, hgf⟩ := hf
    by_cases hcond : (g.allocated && g.owner == pid) = true
    · rw [if_pos hcond] at hgf
      rw [← hgf]
      simpa using (Ne.symm hpid)
    · rw [if_neg hcond] at hgf
      rw [← hgf]
      intro howner
      rw [Bool.and_eq_true, beq_iff_eq] at hcond
      rcases Bool.eq_false_or_eq_true g.allocated with hga | hga
      · exact hcond ⟨hga, howner⟩
      · have hgo := hclean g hg hga
        rw [howner] at hgo
        exact hpid hgo
  · intro i f hi hown
    unfold deallocate_paged_frames
    rw [List.getElem?_map, hi]
    rcases Bool.eq_false_or_eq_true f.allocated with hfa | hfa
    · simp [hfa, hown]
    · have hfo := hclean f (List.getElem?_mem hi) hfa
      rw [hown] at hfo
      exact absurd hfo hpid
  · intro i f hi hown
    unfold deallocate_paged_frames
    rw [List.getElem?_map, hi]
    have hcond : (f.allocated && f.owner == pid) = false := by
      rcases Bool.eq_false_or_eq_true f.allocated with hfa | hfa
      · simp [hfa, beq_eq_false_iff_ne, hown]
      · simp [hfa]
    simp only [Option.map_some']
    rw [if_neg (by rw [hcond]; exact Bool.false_ne_true)]

theorem c10_paged_dealloc_frames_witness :
    (∀ f ∈ [({ allocated := true, owner := 5 } : Frame),
            { allocated := true, owner := 9 },
            { allocated := false, owner := -1 },
            { allocated := true, owner := 5 }],
      f.allocated = false → f.owner = -1) ∧
    ((5 : Int) ≠ -1) ∧
    (∀ f ∈ deallocate_paged_frames 5
        [({ allocated := true, owner := 5 } : Frame),
         { allocated := true, owner := 9 },
         { allocated := false, owner := -1 },
         { allocated := true, owner := 5 }],
      f.owner ≠ 5) :=
  ⟨by decide, by decide,
    (c10_paged_dealloc_frames 5
      [{ allocated := true, owner := 5 }, { allocated := true, owner := 9 },
       { allocated := false, owner := -1 }, { allocated := true, owner := 5 }]
      (by decide) (by decide)).1⟩

end Paging

/-! ### Claim C9: infrastructure about owners and registry lookups -/

theorem removeFirst_subset (x : Int) :
    ∀ (l : List Int) (y : Int), y ∈ removeFirst x l → y ∈ l := by
  intro l
  induction l with
  | nil => intro y h; simp [removeFirst] at h
  | cons a rest ih =>
      intro y h
      simp only [removeFirst] at h
      split at h
      · exact List.mem_cons_of_mem a h
      · rw [List.mem_cons] at h
        rcases h with rfl | h
        · exact List.mem_cons_self y rest
        · exact List.mem_cons_of_mem a (ih y h)

theorem removeFirst_nodup (x : Int) :
    ∀ (l : List Int), l.Nodup → (removeFirst x l).Nodup := by
  intro l
  induction l with
  | nil => intro h; simpa [removeFirst] using h
  | cons a rest ih =>
      intro h
      rw [List.nodup_cons] at h
      simp only [removeFirst]
      split
      · exact h.2
      · rw [List.nodup_cons]
        exact ⟨fun hmem => h.1 (removeFirst_subset x rest a hmem), ih h.2⟩

theorem not_mem_removeFirst (x : Int) :
    ∀ (l : List Int), l.Nodup → x ∉ removeFirst x l := by
  intro l
  induction l with
  | nil => intro _ h; simp [removeFirst] at h
  | cons a rest ih =>
      intro hn h
      rw [List.nodup_cons] at hn
      simp only [removeFirst] at h
      split at h
      · rename_i heq
        rw [beq_iff_eq] at heq
        rw [← heq] at h
        exact hn.1 h
      · rw [List.mem_cons] at h
        rename_i hne
        rw [beq_iff_eq] at hne
        rcases h with rfl | h
        · exact hne rfl
        · exact ih hn.2 h

theorem mem_removeFirst_of_ne (x y : Int) (hne : y ≠ x) :
    ∀ (l : List Int), (y ∈ removeFirst x l ↔ y ∈ l) := by
  intro l
  induction l with
  | nil => simp [removeFirst]
  | cons a rest ih =>
      simp only [removeFirst]
      split
      · rename_i heq
        rw [beq_iff_eq] at heq
        subst heq
        rw [List.mem_cons]
        constructor
        · exact Or.inr
        · rintro (rfl | h)
          · exact absurd rfl hne
          · exact h
      · rw [List.mem_cons, List.mem_cons, ih]

theorem ownersOf_cons (b : MemoryBlock) (rest : List MemoryBlock) :
    ownersOf (b :: rest) =
      (if b.is_free = false then [b.process_id] else []) ++ ownersOf rest := by
  unfold ownersOf
  rcases Bool.eq_false_or_eq_true b.is_free with hf | hf <;>
    simp [List.filter, hf]

theorem ownersOf_append (xs ys : List MemoryBlock) :
    ownersOf (xs ++ ys) = ownersOf xs ++ ownersOf ys := by
  unfold ownersOf
  rw [List.filter_append, List.map_append]

theorem ownsBlock_iff (bs : List MemoryBlock) (pid : Int) :
    ownsBlock bs pid = true ↔ pid ∈ ownersOf bs := by
  unfold ownsBlock ownersOf
  rw [List.any_eq_true, List.mem_map]
  constructor
  · rintro ⟨b, hb, hcond⟩
    rw [Bool.and_eq_true, Bool.not_eq_eq_eq_not, Bool.not_true, beq_iff_eq] at hcond
    exact ⟨b, List.mem_filter.mpr ⟨hb, by simp [hcond.1]⟩, hcond.2⟩
  · rintro ⟨b, hb, rfl⟩
    rw [List.mem_filter] at hb
    refine ⟨b, hb.1, ?_⟩
    rw [Bool.and_eq_true, beq_iff_eq]
    exact ⟨hb.2, rfl⟩

theorem ownersOf_mergeAux :
    ∀ (rest : List MemoryBlock) (b : MemoryBlock),
      ownersOf (mergeAux b rest) = ownersOf (b :: rest) := by
  intro rest
  induction rest with
  | nil => intro b; rfl
  | cons b2 rest ih =>
      intro b
      simp only [mergeAux]
      split
      · rename_i hfree
        rw [Bool.and_eq_true] at hfree
        rw [ih]
        rw [ownersOf_cons, ownersOf_cons, ownersOf_cons]
        have h1 : ({ b with size := b.size + b2.size } : MemoryBlock).is_free = b.is_free := rfl
        rw [h1, hfree.1, hfree.2]
        simp
      · rw [ownersOf_cons, ownersOf_cons, ih, ownersOf_cons]

theorem ownersOf_merge (bs : List MemoryBlock) :
    ownersOf (merge_free_blocks bs) = ownersOf bs := by
  cases bs with
  | nil => rfl
  | cons b rest => exact ownersOf_mergeAux rest b

theorem freeFirstBlock_owners (pid : Int) :
    ∀ (bs bs' : List MemoryBlock), freeFirstBlock pid bs = some bs' →
      ownersOf bs' = removeFirst pid (ownersOf bs) := by
  intro bs
  induction bs with
  | nil => intro bs' h; simp [freeFirstBlock] at h
  | cons b rest ih =>
      intro bs' h
      simp only [freeFirstBlock] at h
      split at h
      · rename_i hcond
        rw [Bool.and_eq_true, Bool.not_eq_eq_eq_not, Bool.not_true, beq_iff_eq] at hcond
        cases h
        unfold ownersOf
        simp [List.filter, hcond.1, hcond.2, removeFirst]
      · rename_i hcond
        rcases hrec : freeFirstBlock pid rest with _ | rest'
        · rw [hrec] at h; cases h
        · rw [hrec] at h
          simp only [Option.map_some', Option.some.injEq] at h
          subst h
          have hih := ih rest' hrec
          unfold ownersOf at hih ⊢
          rcases Bool.eq_false_or_eq_true b.is_free with hf | hf
          · simp [List.filter, hf, hih]
          · have hbp : ¬ ((b.process_id == pid) = true) := by
              intro heq
              exact hcond (by rw [hf, heq]; rfl)
            simp [List.filter, hf, hih, removeFirst, hbp]

theorem freeFirstBlock_isSome_of_owns (pid : Int) :
    ∀ (bs : List MemoryBlock), ownsBlock bs pid = true →
      ∃ bs', freeFirstBlock pid bs = some bs' := by
  intro bs
  induction bs with
  | nil => intro h; simp [ownsBlock] at h
  | cons b rest ih =>
      intro h
      simp only [freeFirstBlock]
      split
      · exact ⟨_, rfl⟩
      · rename_i hcond
        unfold ownsBlock at h
        rw [List.any_cons, Bool.or_eq_true] at h
        rcases h with h | h
        · exact absurd h hcond
        · obtain ⟨rest', hrest⟩ := ih h
          exact ⟨b :: rest', by rw [hrest]; rfl⟩

theorem set_eq_take_cons_drop {α : Type} :
    ∀ (l : List α) (i : Nat) (a b : α), l[i]? = some a →
      l.set i b = l.take i ++ b :: l.drop (i + 1) := by
  intro l
  induction l with
  | nil => intro i a b h; simp at h
  | cons c rest ih =>
      intro i a b h
      cases i with
      | zero => simp
      | succ i =>
          simp only [List.getElem?_cons_succ] at h
          simp only [List.set_cons_succ, List.take_succ_cons, List.drop_succ_cons,
            List.cons_append]
          rw [ih i a b h]

theorem cons_self_eq_take_cons_drop {α : Type} :
    ∀ (l : List α) (i : Nat) (a : α), l[i]? = some a →
      l = l.take i ++ a :: l.drop (i + 1) := by
  intro l
  induction l with
  | nil => intro i a h; simp at h
  | cons c rest ih =>
      intro i a h
      cases i with
      | zero =>
          simp only [List.getElem?_cons_zero, Option.some.injEq] at h
          subst h
          simp
      | succ i =>
          simp only [List.getElem?_cons_succ] at h
          simp only [List.take_succ_cons, List.drop_succ_cons, List.cons_append]
          rw [← ih i a h]

theorem allocBlocks_owners {bs : List MemoryBlock} {sz : Nat} {pid arr now : Int}
    {bs' : List MemoryBlock} {addr : Nat}
    (h : allocBlocks bs sz pid arr now = some (bs', addr)) :
    ∃ l1 l2, ownersOf bs = l1 ++ l2 ∧ ownersOf bs' = l1 ++ pid :: l2 := by
  have hbf := bestFit_correct sz bs
  unfold allocBlocks at h
  split at h
  · cases h
  · rename_i i b hfit
    rw [hfit] at hbf
    obtain ⟨hib, hfree, hle, _, _⟩ := hbf
    have hdecomp : bs = bs.take i ++ b :: bs.drop (i + 1) :=
      cons_self_eq_take_cons_drop bs i b hib
    split at h
    · rename_i hc
      simp only [Option.some.injEq, Prod.mk.injEq] at h
      obtain ⟨hbs', _⟩ := h
      refine ⟨ownersOf (bs.take i), ownersOf (bs.drop (i + 1)), ?_, ?_⟩
      · conv_lhs => rw [hdecomp]
        rw [ownersOf_append, ownersOf_cons, hfree]
        rw [if_neg (fun hx => Bool.noConfusion hx)]
        simp
      · rw [← hbs', set_eq_take_cons_drop bs i b _ hib]
        rw [ownersOf_append, ownersOf_cons]
        rw [if_pos rfl]
        simp
    · rename_i hc
      simp only [Option.some.injEq, Prod.mk.injEq] at h
      obtain ⟨hbs', _⟩ := h
      refine ⟨ownersOf (bs.take i), ownersOf (bs.drop (i + 1)), ?_, ?_⟩
      · conv_lhs => rw [hdecomp]
        rw [ownersOf_append, ownersOf_cons, hfree]
        rw [if_neg (fun hx => Bool.noConfusion hx)]
        simp
      · rw [← hbs']
        rw [List.append_assoc]
        rw [ownersOf_append]
        have hmid : ownersOf
            ([{ start_address := b.start_address, size := sz, is_free := false,
                process_id := pid, arrival_time := arr, allocation_time := now },
              { start_address := b.start_address + sz, size := b.size - sz,
                is_free := true, process_id := -1, arrival_time := -1,
                allocation_time := -1 }] ++ bs.drop (i + 1)) =
            pid :: ownersOf (bs.drop (i + 1)) := by
          rw [ownersOf_append]
          rfl
        rw [hmid]

theorem getProcAux_spec (pid : Int) :
    ∀ (procs : List Process) (k j : Nat) (p : Process),
      getProcAux pid procs k = some (j, p) →
      k ≤ j ∧ procs[j - k]? = some p ∧ p.pid = pid := by
  intro procs
  induction procs with
  | nil => intro k j p h; simp [getProcAux] at h
  | cons q rest ih =>
      intro k j p h
      simp only [getProcAux] at h
      split at h
      · rename_i hq
        rw [beq_iff_eq] at hq
        simp only [Option.some.injEq, Prod.mk.injEq] at h
        obtain ⟨rfl, rfl⟩ := h
        exact ⟨le_refl _, by simp, hq⟩
      · obtain ⟨hkj, hget, hpid⟩ := ih (k + 1) j p h
        refine ⟨by omega, ?_, hpid⟩
        have hjk : j - k = (j - (k + 1)) + 1 := by omega
        rw [hjk]
        simpa using hget

theorem get_process_by_pid_spec {procs : List Process} {pid : Int} {j : Nat} {p : Process}
    (h : get_process_by_pid procs pid = some (j, p)) :
    procs[j]? = some p ∧ p.pid = pid := by
  obtain ⟨_, hget, hpid⟩ := getProcAux_spec pid procs 0 j p h
  simpa using ⟨hget, hpid⟩

theorem getProcAux_first (pid : Int) :
    ∀ (procs : List Process) (idx : Nat) (p : Process) (k : Nat),
      (procs.map Process.pid).Nodup → procs[idx]? = some p → p.pid = pid →
      getProcAux pid procs k = some (k + idx, p) := by
  intro procs
  induction procs with
  | nil => intro idx p k _ h; simp at h
  | cons q rest ih =>
      intro idx p k hn h hpid
      rw [List.map_cons, List.nodup_cons] at hn
      cases idx with
      | zero =>
          simp only [List.getElem?_cons_zero, Option.some.injEq] at h
          subst h
          simp only [getProcAux]
          rw [if_pos (by rw [beq_iff_eq]; exact hpid)]
          simp
      | succ idx =>
          simp only [List.getElem?_cons_succ] at h
          have hqp : ¬ ((q.pid == pid) = true) := by
            rw [beq_iff_eq]
            intro heq
            apply hn.1
            rw [List.mem_map]
            exact ⟨p, List.getElem?_mem h, by rw [hpid, heq]⟩
          simp only [getProcAux]
          rw [if_neg hqp]
          have := ih idx p (k + 1) hn.2 h hpid
          rw [this]
          refine congrArg _ (congrArg (fun x => (x, p)) ?_)
          omega

theorem get_process_by_pid_first {procs : List Process} {idx : Nat} {p : Process}
    (hn : (procs.map Process.pid).Nodup) (h : procs[idx]? = some p) :
    get_process_by_pid procs p.pid = some (idx, p) := by
  have := getProcAux_first p.pid procs idx p 0 hn h rfl
  simpa using this

theorem getProcAux_set_other (pid0 : Int) :
    ∀ (procs : List Process) (j k : Nat) (p q : Process),
      procs[j]? = some p → q.pid = p.pid → pid0 ≠ p.pid →
      getProcAux pid0 (procs.set j q) k = getProcAux pid0 procs k := by
  intro procs
  induction procs with
  | nil => intro j k p q h; simp at h
  | cons c rest ih =>
      intro j k p q h hq hne
      cases j with
      | zero =>
          simp only [List.getElem?_cons_zero, Option.some.injEq] at h
          subst h
          simp only [List.set_cons_zero, getProcAux]
          rw [hq]
          have hcond : ¬ ((c.pid == pid0) = true) := by
            rw [beq_iff_eq]
            exact fun hx => hne hx.symm
          rw [if_neg hcond, if_neg hcond]
      | succ j =>
          simp only [List.getElem?_cons_succ] at h
          simp only [List.set_cons_succ, getProcAux]
          rw [ih j (k + 1) p q h hq hne]

theorem get_process_by_pid_set_other {procs : List Process} {j : Nat} {p q : Process}
    {pid0 : Int} (h : procs[j]? = some p) (hq : q.pid = p.pid) (hne : pid0 ≠ p.pid) :
    get_process_by_pid (procs.set j q) pid0 = get_process_by_pid procs pid0 :=
  getProcAux_set_other pid0 procs j 0 p q h hq hne

theorem map_pid_set {procs : List Process} {j : Nat} {p q : Process}
    (h : procs[j]? = some p) (hq : q.pid = p.pid) :
    (procs.set j q).map Process.pid = procs.map Process.pid := by
  induction procs generalizing j with
  | nil => simp at h
  | cons c rest ih =>
      cases j with
      | zero =>
          simp only [List.getElem?_cons_zero, Option.some.injEq] at h
          subst h
          simp [hq]
      | succ j =>
          simp only [List.getElem?_cons_succ] at h
          simp only [List.set_cons_succ, List.map_cons, ih h]

theorem pids_nodup_ne {procs : List Process} {i j : Nat} {a b : Process}
    (hn : (procs.map Process.pid).Nodup) (hij : i ≠ j)
    (ha : procs[i]? = some a) (hb : procs[j]? = some b) : a.pid ≠ b.pid := by
  intro heq
  have hma : (procs.map Process.pid)[i]? = some a.pid := by
    rw [List.getElem?_map, ha]; rfl
  have hmb : (procs.map Process.pid)[j]? = some a.pid := by
    rw [List.getElem?_map, hb, heq]; rfl
  exact hij (List.getElem?_inj (by
    rw [List.length_map]
    exact (List.getElem?_eq_some.mp ha).1) hn (hma.trans hmb.symm))

theorem ProcsEvol_refl (ps : List Process) : ProcsEvol ps ps := by
  refine ⟨rfl, ?_⟩
  intro j p0 p1 h0 h1
  rw [h0] at h1
  cases h1
  exact ⟨rfl, rfl, rfl, fun _ => rfl, fun hc hc2 => by rw [hc] at hc2; cases hc2⟩

theorem ProcsEvol_trans {a b c : List Process}
    (hab : ProcsEvol a b) (hbc : ProcsEvol b c) : ProcsEvol a c := by
  obtain ⟨hlab, hab⟩ := hab
  obtain ⟨hlbc, hbc⟩ := hbc
  refine ⟨hlab.trans hlbc, ?_⟩
  intro j p0 p2 h0 h2
  have hj : j < b.length := by
    rw [← hlab]
    exact (List.getElem?_eq_some.mp h0).1
  rcases hb : b[j]? with _ | p1
  · rw [List.getElem?_eq_none_iff] at hb
    omega
  · obtain ⟨hpid1, hsz1, hex1, hfr1, hcm1⟩ := hab j p0 p1 h0 hb
    obtain ⟨hpid2, hsz2, hex2, hfr2, hcm2⟩ := hbc j p1 p2 hb h2
    refine ⟨hpid2.trans hpid1, hsz2.trans hsz1, hex2.trans hex1, ?_, ?_⟩
    · intro hc
      rw [hfr2 (by rw [hfr1 hc]; exact hc), hfr1 hc]
    · intro hc0 hc2
      rcases Bool.eq_false_or_eq_true p1.completed with hc1 | hc1
      · rw [hfr2 hc1] at hc2
        have := hcm1 hc0 hc2
        rw [hfr2 hc1]
        exact this
      · exact hcm2 hc1 hc2

theorem ProcsEvol_set {procs : List Process} {j : Nat} {p q : Process}
    (h : procs[j]? = some p) (hpc : p.completed = false)
    (hpid : q.pid = p.pid) (hsz : q.size = p.size) (hex : q.execution_time = p.execution_time)
    (hcm : q.completed = true → q.remaining_time = 0) :
    ProcsEvol procs (procs.set j q) := by
  refine ⟨(List.length_set procs j q).symm, ?_⟩
  intro i p0 p1 h0 h1
  by_cases hij : i = j
  · subst hij
    rw [h0] at h
    cases h
    rw [List.getElem?_set_eq_of_lt q (List.getElem?_eq_some.mp h0).1] at h1
    cases h1
    exact ⟨hpid, hsz, hex, fun hc => Bool.noConfusion (hpc.symm.trans hc), fun _ => hcm⟩
  · rw [List.getElem?_set_ne (fun hx => hij hx.symm)] at h1
    rw [h0] at h1
    cases h1
    exact ⟨rfl, rfl, rfl, fun _ => rfl, fun hc hc2 => by rw [hc] at hc2; cases hc2⟩

theorem Good.congr {st st' : SimState} (hg : Good st)
    (hw : st'.waiting = st.waiting) (hp : st'.procs = st.procs)
    (hb : st'.blocks = st.blocks) (ha : st'.allocated = st.allocated) : Good st' := by
  refine ⟨?_, ?_, ?_, ?_, ?_, ?_, ?_, ?_, ?_, ?_⟩
  · rw [hw, hp]; exact hg.waiting_lt
  · rw [hw]; exact hg.waiting_nodup
  · rw [hp]; exact hg.pids_nodup
  · rw [ha]; exact hg.alloc_nodup
  · rw [hb]; exact hg.owners_nodup
  · rw [ha, hb]; exact hg.alloc_owns
  · rw [ha, hp]; exact hg.alloc_rem
  · rw [hp, ha, hb, hw]; exact hg.completed_clean
  · rw [hw, hp, ha, hb]; exact hg.waiting_fresh
  · rw [hp]; exact hg.exec_pos

theorem Good_waiting_sublist {st : SimState} {q q' : List Nat} (hs : q'.Sublist q)
    (hg : Good { st with waiting := q }) : Good { st with waiting := q' } := by
  refine ⟨?_, ?_, hg.pids_nodup, hg.alloc_nodup, hg.owners_nodup, hg.alloc_owns,
    hg.alloc_rem, ?_, ?_, hg.exec_pos⟩
  · intro i hi
    exact hg.waiting_lt i (hs.subset hi)
  · exact hg.waiting_nodup.sublist hs
  · intro p hp hc
    obtain ⟨h1, h2, h3⟩ := hg.completed_clean p hp hc
    exact ⟨h1, h2, fun i hi => h3 i (hs.subset hi)⟩
  · intro i hi
    exact hg.waiting_fresh i (hs.subset hi)

theorem waiting_not_completed {st : SimState} (hg : Good st) {i : Nat} (hi : i ∈ st.waiting)
    {p : Process} (hp : st.procs[i]? = some p) : p.completed = false := by
  cases hc : p.completed
  · rfl
  · exact absurd rfl ((hg.completed_clean p (List.getElem?_mem hp) hc).2.2 i hi p hp)

theorem alloc_proc_not_completed {st : SimState} (hg : Good st) {pid : Int} {j : Nat}
    {p : Process} (hmem : pid ∈ st.allocated)
    (hget : get_process_by_pid st.procs pid = some (j, p)) : p.completed = false := by
  obtain ⟨hpj, hppid⟩ := get_process_by_pid_spec hget
  cases hc : p.completed
  · rfl
  · exact absurd (show p.pid ∈ st.allocated by rw [hppid]; exact hmem)
      ((hg.completed_clean p (List.getElem?_mem hpj) hc).1)

theorem alloc_proc_idx_not_waiting {st : SimState} (hg : Good st) {pid : Int} {j : Nat}
    {p : Process} (hmem : pid ∈ st.allocated)
    (hget : get_process_by_pid st.procs pid = some (j, p)) : j ∉ st.waiting := by
  obtain ⟨hpj, hppid⟩ := get_process_by_pid_spec hget
  intro hj
  exact (hg.waiting_fresh j hj p hpj).1
    (show p.pid ∈ st.allocated by rw [hppid]; exact hmem)

theorem ownsBlock_eq_false_iff (bs : List MemoryBlock) (pid : Int) :
    ownsBlock bs pid = false ↔ pid ∉ ownersOf bs := by
  rw [← ownsBlock_iff]
  constructor
  · intro h hc
    rw [h] at hc
    cases hc
  · intro h
    cases h1 : ownsBlock bs pid
    · rfl
    · exact absurd h1 h

theorem mem_middle_iff {x a : Int} {l1 l2 : List Int} :
    x ∈ l1 ++ a :: l2 ↔ x = a ∨ x ∈ l1 ++ l2 := by
  constructor
  · intro h
    rcases List.mem_append.mp h with h | h
    · exact Or.inr (List.mem_append.mpr (Or.inl h))
    · rcases List.mem_cons.mp h with h | h
      · exact Or.inl h
      · exact Or.inr (List.mem_append.mpr (Or.inr h))
  · intro h
    rcases h with rfl | h
    · exact List.mem_append.mpr (Or.inr (List.mem_cons_self _ _))
    · rcases List.mem_append.mp h with h | h
      · exact List.mem_append.mpr (Or.inl h)
      · exact List.mem_append.mpr (Or.inr (List.mem_cons_of_mem _ h))

theorem freeFirstBlock_none_of_not_owns (pid : Int) :
    ∀ (bs : List MemoryBlock), ownsBlock bs pid = false → freeFirstBlock pid bs = none := by
  intro bs
  induction bs with
  | nil => intro _; rfl
  | cons b rest ih =>
      intro h
      have hcond : (!b.is_free && (b.process_id == pid)) = false := by
        cases hx : (!b.is_free && (b.process_id == pid))
        · rfl
        · exfalso
          unfold ownsBlock at h
          rw [List.any_cons, hx, Bool.true_or] at h
          cases h
      have hrest : ownsBlock rest pid = false := by
        unfold ownsBlock at h ⊢
        rw [List.any_cons, hcond, Bool.false_or] at h
        exact h
      simp only [freeFirstBlock]
      rw [if_neg (fun hx => Bool.noConfusion (hcond.symm.trans hx)), ih hrest]
      rfl

theorem deallocate_noop {st : SimState} {pid : Int}
    (h : ownsBlock st.blocks pid = false) : deallocate_memory st pid = st := by
  unfold deallocate_memory
  rw [freeFirstBlock_none_of_not_owns pid st.blocks h]

theorem retrySpec_cons (st : SimState) (idx : Nat) (rest : List Nat) :
    retrySpec st (idx :: rest) =
      if (allocate_memory st idx).1 then
        ((retrySpec (allocate_memory st idx).2 rest).1,
         (retrySpec (allocate_memory st idx).2 rest).2.1,
         (retrySpec (allocate_memory st idx).2 rest).2.2 + 1)
      else
        ((retrySpec (allocate_memory st idx).2 rest).1,
         idx :: (retrySpec (allocate_memory st idx).2 rest).2.1,
         (retrySpec (allocate_memory st idx).2 rest).2.2) := rfl

theorem allocate_success_eq (st : SimState) (idx : Nat) (p : Process)
    (blocks2 : List MemoryBlock) (addr : Nat)
    (hp : st.procs[idx]? = some p)
    (hb : allocBlocks st.blocks p.size p.pid p.arrival_time st.current_time =
      some (blocks2, addr)) :
    allocate_memory st idx =
      (true,
       { st with
         blocks := blocks2,
         procs := st.procs.set idx
           { p with allocated := true, allocation_time := st.current_time,
                    memory_address := (addr : Int),
                    remaining_time := p.execution_time,
                    waiting_time := st.current_time - p.arrival_time },
         allocated := st.allocated ++ [p.pid],
         stats := { st.stats with
           successful_allocations := st.stats.successful_allocations + 1,
           max_waiting_time :=
             if st.stats.max_waiting_time < st.current_time - p.arrival_time then
               st.current_time - p.arrival_time
             else st.stats.max_waiting_time } }) := by
  unfold allocate_memory
  simp only [hp, hb]

theorem allocate_success_shape (st : SimState) (idx : Nat)
    (h : (allocate_memory st idx).1 = true) :
    ∃ p blocks2 addr, st.procs[idx]? = some p ∧
      allocBlocks st.blocks p.size p.pid p.arrival_time st.current_time =
        some (blocks2, addr) := by
  unfold allocate_memory at h
  split at h
  · exact Bool.noConfusion h
  · rename_i p hp
    split at h
    · exact Bool.noConfusion h
    · rename_i blocks2 addr hb
      exact ⟨p, blocks2, addr, hp, hb⟩

theorem allocate_fail_shape (st : SimState) (idx : Nat)
    (h : (allocate_memory st idx).1 = false) :
    (allocate_memory st idx).2.procs = st.procs ∧
    (allocate_memory st idx).2.blocks = st.blocks ∧
    (allocate_memory st idx).2.allocated = st.allocated ∧
    (allocate_memory st idx).2.waiting = st.waiting := by
  unfold allocate_memory
  unfold allocate_memory at h
  split at h
  · rename_i hp
    refine ⟨?_, ?_, ?_, ?_⟩ <;> simp only [hp]
  · rename_i p hp
    split at h
    · rename_i hb
      refine ⟨?_, ?_, ?_, ?_⟩ <;> simp only [hp, hb]
    · exact Bool.noConfusion h

theorem deallocate_complete_spec (st : SimState) (pid : Int) (blocks1 : List MemoryBlock)
    (j : Nat) (p : Process)
    (hfb : freeFirstBlock pid st.blocks = some blocks1)
    (hget : get_process_by_pid st.procs pid = some (j, p))
    (hnc : p.completed = false) (hle : p.remaining_time ≤ 0) :
    deallocate_memory st pid =
      { st with blocks := merge_free_blocks blocks1,
                allocated := removeFirst pid st.allocated,
                procs := st.procs.set j { p with completed := true },
                stats := { st.stats with
                  completed_processes := st.stats.completed_processes + 1 } } := by
  unfold deallocate_memory
  simp only [hfb, hget]
  split
  · rfl
  · rename_i hcond
    exact absurd (by
      rw [hnc]
      simp only [Bool.not_false, Bool.true_and, decide_eq_true_eq]
      exact hle) hcond

theorem completion_step_good (st : SimState) (pid : Int) (j : Nat) (p : Process)
    (hg : Good st) (hmem : pid ∈ st.allocated)
    (hget : get_process_by_pid st.procs pid = some (j, p))
    (hle : p.remaining_time - 1 ≤ 0) :
    Good (deallocate_memory
      { st with procs := st.procs.set j { p with remaining_time := p.remaining_time - 1 } }
      pid) ∧
    ProcsEvol st.procs
      (deallocate_memory
        { st with procs := st.procs.set j { p with remaining_time := p.remaining_time - 1 } }
        pid).procs := by
  obtain ⟨hpj, hppid⟩ := get_process_by_pid_spec hget
  have hjlt : j < st.procs.length := (List.getElem?_eq_some.mp hpj).1
  have hrem : 1 ≤ p.remaining_time := hg.alloc_rem pid hmem j p hget
  have hnc : p.completed = false := alloc_proc_not_completed hg hmem hget
  have hjw : j ∉ st.waiting := alloc_proc_idx_not_waiting hg hmem hget
  have howns : ownsBlock st.blocks pid = true := hg.alloc_owns pid hmem
  obtain ⟨blocks1, hfb⟩ := freeFirstBlock_isSome_of_owns pid st.blocks howns
  have howners1 : ownersOf blocks1 = removeFirst pid (ownersOf st.blocks) :=
    freeFirstBlock_owners pid st.blocks blocks1 hfb
  have hn1 : ((st.procs.set j { p with remaining_time := p.remaining_time - 1 }).map
      Process.pid).Nodup := by
    rw [map_pid_set (q := { p with remaining_time := p.remaining_time - 1 }) hpj rfl]
    exact hg.pids_nodup
  have hset : (st.procs.set j { p with remaining_time := p.remaining_time - 1 })[j]? =
      some { p with remaining_time := p.remaining_time - 1 } :=
    List.getElem?_set_eq_of_lt _ hjlt
  have hget1 : get_process_by_pid
      (st.procs.set j { p with remaining_time := p.remaining_time - 1 }) pid =
      some (j, { p with remaining_time := p.remaining_time - 1 }) := by
    rw [← hppid]
    exact get_process_by_pid_first hn1 hset
  have hdeq : deallocate_memory
      { st with procs := st.procs.set j { p with remaining_time := p.remaining_time - 1 } }
      pid =
      { st with
        blocks := merge_free_blocks blocks1,
        allocated := removeFirst pid st.allocated,
        procs := st.procs.set j
          { p with remaining_time := p.remaining_time - 1, completed := true },
        stats := { st.stats with
          completed_processes := st.stats.completed_processes + 1 } } := by
    rw [deallocate_complete_spec
      { st with procs := st.procs.set j { p with remaining_time := p.remaining_time - 1 } }
      pid blocks1 j { p with remaining_time := p.remaining_time - 1 }
      hfb hget1 hnc hle]
    simp only [List.set_set]
  rw [hdeq]
  refine ⟨⟨?_, ?_, ?_, ?_, ?_, ?_, ?_, ?_, ?_, ?_⟩, ?_⟩
  · intro i hi
    show i < (st.procs.set j _).length
    rw [List.length_set]
    exact hg.waiting_lt i hi
  · exact hg.waiting_nodup
  · show ((st.procs.set j
        { p with remaining_time := p.remaining_time - 1, completed := true }).map
      Process.pid).Nodup
    rw [map_pid_set
      (q := { p with remaining_time := p.remaining_time - 1, completed := true }) hpj rfl]
    exact hg.pids_nodup
  · exact removeFirst_nodup pid st.allocated hg.alloc_nodup
  · show (ownersOf (merge_free_blocks blocks1)).Nodup
    rw [ownersOf_merge, howners1]
    exact removeFirst_nodup pid _ hg.owners_nodup
  · intro pid2 h2
    have hsub : pid2 ∈ st.allocated := removeFirst_subset pid st.allocated pid2 h2
    have hne : pid2 ≠ pid := by
      intro he
      rw [he] at h2
      exact not_mem_removeFirst pid st.allocated hg.alloc_nodup h2
    show ownsBlock (merge_free_blocks blocks1) pid2 = true
    rw [ownsBlock_iff, ownersOf_merge, howners1]
    exact (mem_removeFirst_of_ne pid pid2 hne (ownersOf st.blocks)).mpr
      ((ownsBlock_iff st.blocks pid2).mp (hg.alloc_owns pid2 hsub))
  · intro pid2 h2 j2 p2 hget2
    have hsub : pid2 ∈ st.allocated := removeFirst_subset pid st.allocated pid2 h2
    have hne : pid2 ≠ pid := by
      intro he
      rw [he] at h2
      exact not_mem_removeFirst pid st.allocated hg.alloc_nodup h2
    have hget2a : get_process_by_pid
        (st.procs.set j { p with remaining_time := p.remaining_time - 1, completed := true })
        pid2 = some (j2, p2) := hget2
    rw [get_process_by_pid_set_other
      (q := { p with remaining_time := p.remaining_time - 1, completed := true })
      hpj rfl (by rw [hppid]; exact hne)] at hget2a
    exact hg.alloc_rem pid2 hsub j2 p2 hget2a
  · intro pc hpc hcc
    have hpc2 : pc ∈ st.procs.set j
        { p with remaining_time := p.remaining_time - 1, completed := true } := hpc
    rcases List.mem_or_eq_of_mem_set hpc2 with hmemc | rfl
    · obtain ⟨h1, h2, h3⟩ := hg.completed_clean pc hmemc hcc
      refine ⟨fun hin => h1 (removeFirst_subset pid st.allocated pc.pid hin), ?_, ?_⟩
      · show ownsBlock (merge_free_blocks blocks1) pc.pid = false
        rw [ownsBlock_eq_false_iff, ownersOf_merge, howners1]
        intro hin
        exact (ownsBlock_eq_false_iff st.blocks pc.pid).mp h2
          (removeFirst_subset pid (ownersOf st.blocks) pc.pid hin)
      · intro i hi q2 hq2
        have hij : ¬ (j = i) := fun he => hjw (by rw [he]; exact hi)
        have hq2a : (st.procs.set j
            { p with remaining_time := p.remaining_time - 1, completed := true })[i]? =
            some q2 := hq2
        rw [List.getElem?_set_ne hij] at hq2a
        exact h3 i hi q2 hq2a
    · refine ⟨?_, ?_, ?_⟩
      · show p.pid ∉ removeFirst pid st.allocated
        rw [hppid]
        exact not_mem_removeFirst pid st.allocated hg.alloc_nodup
      · show ownsBlock (merge_free_blocks blocks1) p.pid = false
        rw [ownsBlock_eq_false_iff, ownersOf_merge, howners1, hppid]
        exact not_mem_removeFirst pid _ hg.owners_nodup
      · intro i hi q2 hq2
        have hij : ¬ (j = i) := fun he => hjw (by rw [he]; exact hi)
        have hq2a : (st.procs.set j
            { p with remaining_time := p.remaining_time - 1, completed := true })[i]? =
            some q2 := hq2
        rw [List.getElem?_set_ne hij] at hq2a
        show q2.pid ≠ p.pid
        rw [hppid]
        intro he
        exact (hg.waiting_fresh i hi q2 hq2a).1 (by rw [he]; exact hmem)
  · intro i hi q2 hq2
    have hij : ¬ (j = i) := fun he => hjw (by rw [he]; exact hi)
    have hq2a : (st.procs.set j
        { p with remaining_time := p.remaining_time - 1, completed := true })[i]? =
        some q2 := hq2
    rw [List.getElem?_set_ne hij] at hq2a
    obtain ⟨hf1, hf2⟩ := hg.waiting_fresh i hi q2 hq2a
    have hne : q2.pid ≠ pid := fun he => hf1 (by rw [he]; exact hmem)
    refine ⟨fun hin => hf1 (removeFirst_subset pid st.allocated q2.pid hin), ?_⟩
    show ownsBlock (merge_free_blocks blocks1) q2.pid = false
    rw [ownsBlock_eq_false_iff, ownersOf_merge, howners1]
    intro hin
    exact (ownsBlock_eq_false_iff st.blocks q2.pid).mp hf2
      (removeFirst_subset pid (ownersOf st.blocks) q2.pid hin)
  · intro pc hpc
    have hpc2 : pc ∈ st.procs.set j
        { p with remaining_time := p.remaining_time - 1, completed := true } := hpc
    rcases List.mem_or_eq_of_mem_set hpc2 with hmemc | rfl
    · exact hg.exec_pos pc hmemc
    · show 1 ≤ p.execution_time
      exact hg.exec_pos p (List.getElem?_mem hpj)
  · exact ProcsEvol_set hpj hnc rfl rfl rfl (fun _ => by
      show p.remaining_time - 1 = 0
      omega)

theorem decrement_step_good (st : SimState) (pid : Int) (j : Nat) (p : Process)
    (hg : Good st) (hmem : pid ∈ st.allocated)
    (hget : get_process_by_pid st.procs pid = some (j, p))
    (hgt : ¬ (p.remaining_time - 1 ≤ 0)) :
    Good { st with
      procs := st.procs.set j { p with remaining_time := p.remaining_time - 1 } } ∧
    ProcsEvol st.procs
      (st.procs.set j { p with remaining_time := p.remaining_time - 1 }) := by
  obtain ⟨hpj, hppid⟩ := get_process_by_pid_spec hget
  have hjlt : j < st.procs.length := (List.getElem?_eq_some.mp hpj).1
  have hnc : p.completed = false := alloc_proc_not_completed hg hmem hget
  have hjw : j ∉ st.waiting := alloc_proc_idx_not_waiting hg hmem hget
  have hn1 : ((st.procs.set j { p with remaining_time := p.remaining_time - 1 }).map
      Process.pid).Nodup := by
    rw [map_pid_set (q := { p with remaining_time := p.remaining_time - 1 }) hpj rfl]
    exact hg.pids_nodup
  have hset : (st.procs.set j { p with remaining_time := p.remaining_time - 1 })[j]? =
      some { p with remaining_time := p.remaining_time - 1 } :=
    List.getElem?_set_eq_of_lt _ hjlt
  have hget1 : get_process_by_pid
      (st.procs.set j { p with remaining_time := p.remaining_time - 1 }) pid =
      some (j, { p with remaining_time := p.remaining_time - 1 }) := by
    rw [← hppid]
    exact get_process_by_pid_first hn1 hset
  refine ⟨⟨?_, ?_, ?_, ?_, ?_, ?_, ?_, ?_, ?_, ?_⟩, ?_⟩
  · intro i hi
    show i < (st.procs.set j _).length
    rw [List.length_set]
    exact hg.waiting_lt i hi
  · exact hg.waiting_nodup
  · exact hn1
  · exact hg.alloc_nodup
  · exact hg.owners_nodup
  · exact hg.alloc_owns
  · intro pid2 h2 j2 p2 hget2
    by_cases hne : pid2 = pid
    · subst hne
      have heq := hget1.symm.trans hget2
      simp only [Option.some.injEq, Prod.mk.injEq] at heq
      obtain ⟨hj2, hp2⟩ := heq
      rw [← hp2]
      show 1 ≤ p.remaining_time - 1
      omega
    · have hget2a : get_process_by_pid
          (st.procs.set j { p with remaining_time := p.remaining_time - 1 }) pid2 =
          some (j2, p2) := hget2
      rw [get_process_by_pid_set_other
        (q := { p with remaining_time := p.remaining_time - 1 })
        hpj rfl (by rw [hppid]; exact hne)] at hget2a
      exact hg.alloc_rem pid2 h2 j2 p2 hget2a
  · intro pc hpc hcc
    have hpc2 : pc ∈ st.procs.set j
        { p with remaining_time := p.remaining_time - 1 } := hpc
    rcases List.mem_or_eq_of_mem_set hpc2 with hmemc | rfl
    · obtain ⟨h1, h2, h3⟩ := hg.completed_clean pc hmemc hcc
      refine ⟨h1, h2, ?_⟩
      intro i hi q2 hq2
      have hij : ¬ (j = i) := fun he => hjw (by rw [he]; exact hi)
      have hq2a : (st.procs.set j
          { p with remaining_time := p.remaining_time - 1 })[i]? = some q2 := hq2
      rw [List.getElem?_set_ne hij] at hq2a
      exact h3 i hi q2 hq2a
    · exact Bool.noConfusion (hnc.symm.trans hcc)
  · intro i hi q2 hq2
    have hij : ¬ (j = i) := fun he => hjw (by rw [he]; exact hi)
    have hq2a : (st.procs.set j
        { p with remaining_time := p.remaining_time - 1 })[i]? = some q2 := hq2
    rw [List.getElem?_set_ne hij] at hq2a
    exact hg.waiting_fresh i hi q2 hq2a
  · intro pc hpc
    have hpc2 : pc ∈ st.procs.set j
        { p with remaining_time := p.remaining_time - 1 } := hpc
    rcases List.mem_or_eq_of_mem_set hpc2 with hmemc | rfl
    · exact hg.exec_pos pc hmemc
    · show 1 ≤ p.execution_time
      exact hg.exec_pos p (List.getElem?_mem hpj)
  · exact ProcsEvol_set hpj hnc rfl rfl rfl
      (fun hc => Bool.noConfusion (hnc.symm.trans hc))

theorem checkCompletionAux_good :
    ∀ (fuel : Nat) (st : SimState) (i : Nat), Good st →
      Good (checkCompletionAux fuel st i) ∧
      ProcsEvol st.procs (checkCompletionAux fuel st i).procs := by
  intro fuel
  induction fuel with
  | zero => intro st i hg; exact ⟨hg, ProcsEvol_refl _⟩
  | succ fuel ih =>
      intro st i hg
      simp only [checkCompletionAux]
      split
      · rename_i h
        split
        · rename_i j p hget
          split
          · split
            · rename_i hle
              have hmem : st.allocated.get ⟨i, h⟩ ∈ st.allocated := List.get_mem _ _ h
              obtain ⟨hgood2, hevol2⟩ :=
                completion_step_good st (st.allocated.get ⟨i, h⟩) j p hg hmem hget hle
              obtain ⟨hg3, he3⟩ := ih _ i hgood2
              exact ⟨hg3, ProcsEvol_trans hevol2 he3⟩
            · rename_i hgt
              have hmem : st.allocated.get ⟨i, h⟩ ∈ st.allocated := List.get_mem _ _ h
              obtain ⟨hgood2, hevol2⟩ :=
                decrement_step_good st (st.allocated.get ⟨i, h⟩) j p hg hmem hget hgt
              obtain ⟨hg3, he3⟩ := ih _ (i + 1) hgood2
              exact ⟨hg3, ProcsEvol_trans hevol2 he3⟩
          · exact ih st (i + 1) hg
        · exact ih st (i + 1) hg
      · exact ⟨hg, ProcsEvol_refl _⟩

theorem check_process_completion_good (st : SimState) (hg : Good st) :
    Good (check_process_completion st) ∧
    ProcsEvol st.procs (check_process_completion st).procs :=
  checkCompletionAux_good (st.allocated.length + 1) st 0 hg

theorem retrySpec_good :
    ∀ (q : List Nat) (st : SimState), Good { st with waiting := q } →
      Good { (retrySpec st q).1 with waiting := (retrySpec st q).2.1 } ∧
      ProcsEvol st.procs (retrySpec st q).1.procs ∧
      (retrySpec st q).2.1.Sublist q ∧
      (retrySpec st q).1.procs.length = st.procs.length ∧
      (∀ m, m ∉ q → (retrySpec st q).1.procs[m]? = st.procs[m]?) ∧
      (∀ (m : Nat) (p0 p1 : Process),
        st.procs[m]? = some p0 → (retrySpec st q).1.procs[m]? = some p1 →
        p1.pid = p0.pid ∧ p1.size = p0.size ∧
        p1.execution_time = p0.execution_time ∧ p1.completed = p0.completed) ∧
      (∀ x, x ∉ st.allocated → ownsBlock st.blocks x = false →
        (∀ i ∈ q, ∀ p2, st.procs[i]? = some p2 → p2.pid ≠ x) →
        x ∉ (retrySpec st q).1.allocated ∧
        ownsBlock (retrySpec st q).1.blocks x = false) := by
  intro q
  induction q with
  | nil =>
      intro st hg
      refine ⟨hg, ProcsEvol_refl st.procs, List.nil_sublist _, rfl, fun m _ => rfl, ?_, ?_⟩
      · intro m p0 p1 h0 h1
        have h1a : st.procs[m]? = some p1 := h1
        rw [h0] at h1a
        cases h1a
        exact ⟨rfl, rfl, rfl, rfl⟩
      · intro x h1 h2 _
        exact ⟨h1, h2⟩
  | cons idx rest ih =>
      intro st hg
      have hidxlt : idx < st.procs.length :=
        hg.waiting_lt idx (List.mem_cons_self idx rest)
      have hidxnotin : idx ∉ rest := (List.nodup_cons.mp hg.waiting_nodup).1
      cases hflag : (allocate_memory st idx).1 with
      | false =>
          obtain ⟨hpr, hbl, hal, hwa⟩ := allocate_fail_shape st idx hflag
          have hg1 : Good { st with waiting := rest } :=
            Good_waiting_sublist (List.Sublist.cons idx (List.Sublist.refl rest)) hg
          have hg2 : Good { (allocate_memory st idx).2 with waiting := rest } :=
            Good.congr hg1 rfl hpr hbl hal
          obtain ⟨ihGood, ihEvol, ihSub, ihLen, ihUntouched, ihFields, ihFresh⟩ :=
            ih (allocate_memory st idx).2 hg2
          have hred : retrySpec st (idx :: rest) =
              ((retrySpec (allocate_memory st idx).2 rest).1,
               idx :: (retrySpec (allocate_memory st idx).2 rest).2.1,
               (retrySpec (allocate_memory st idx).2 rest).2.2) := by
            rw [retrySpec_cons,
              if_neg (fun hx => Bool.noConfusion (hflag.symm.trans hx))]
          rw [hred]
          refine ⟨?_, ?_, ?_, ?_, ?_, ?_, ?_⟩
          · refine ⟨?_, ?_, ihGood.pids_nodup, ihGood.alloc_nodup, ihGood.owners_nodup,
              ihGood.alloc_owns, ihGood.alloc_rem, ?_, ?_, ihGood.exec_pos⟩
            · intro i hi
              rcases List.mem_cons.mp hi with rfl | hi2
              · show i < (retrySpec (allocate_memory st i).2 rest).1.procs.length
                rw [ihLen, hpr]
                exact hidxlt
              · exact ihGood.waiting_lt i hi2
            · exact List.nodup_cons.mpr
                ⟨fun hin => hidxnotin (ihSub.subset hin), ihGood.waiting_nodup⟩
            · intro pc hpc hcc
              obtain ⟨h1, h2, h3⟩ := ihGood.completed_clean pc hpc hcc
              refine ⟨h1, h2, ?_⟩
              intro i hi q2 hq2
              rcases List.mem_cons.mp hi with rfl | hi2
              · have hq2a : (retrySpec (allocate_memory st i).2 rest).1.procs[i]? =
                    some q2 := hq2
                rw [ihUntouched i hidxnotin, hpr] at hq2a
                have hpcR : pc ∈ (retrySpec (allocate_memory st i).2 rest).1.procs := hpc
                obtain ⟨m, hm⟩ := List.mem_iff_getElem?.mp hpcR
                have hmlt : m < st.procs.length := by
                  have hx := (List.getElem?_eq_some.mp hm).1
                  rw [ihLen, hpr] at hx
                  exact hx
                rcases h0 : st.procs[m]? with _ | p0
                · rw [List.getElem?_eq_none_iff] at h0
                  omega
                · obtain ⟨hfpid, _, _, hfcomp⟩ :=
                    ihFields m p0 pc (by rw [hpr]; exact h0) hm
                  have hp0c : p0.completed = true := hfcomp.symm.trans hcc
                  have h3b := (hg.completed_clean p0 (List.getElem?_mem h0) hp0c).2.2
                  have hres := h3b i (List.mem_cons_self i rest) q2 hq2a
                  rw [hfpid]
                  exact hres
              · exact h3 i hi2 q2 hq2
            · intro i hi q2 hq2
              rcases List.mem_cons.mp hi with rfl | hi2
              · have hq2a : (retrySpec (allocate_memory st i).2 rest).1.procs[i]? =
                    some q2 := hq2
                rw [ihUntouched i hidxnotin, hpr] at hq2a
                obtain ⟨hwf1, hwf2⟩ :=
                  hg.waiting_fresh i (List.mem_cons_self i rest) q2 hq2a
                exact ihFresh q2.pid (by rw [hal]; exact hwf1) (by rw [hbl]; exact hwf2)
                  (fun i2 hi2b p2 hp2 => by
                    rw [hpr] at hp2
                    have hne : i2 ≠ i := fun he => hidxnotin (he ▸ hi2b)
                    exact pids_nodup_ne hg.pids_nodup hne hp2 hq2a)
              · exact ihGood.waiting_fresh i hi2 q2 hq2
          · have he := ihEvol
            rw [hpr] at he
            exact he
          · exact List.Sublist.cons₂ idx ihSub
          · show (retrySpec (allocate_memory st idx).2 rest).1.procs.length =
              st.procs.length
            rw [ihLen, hpr]
          · intro m hm
            have hm2 : m ∉ rest := fun hin => hm (List.mem_cons_of_mem idx hin)
            show (retrySpec (allocate_memory st idx).2 rest).1.procs[m]? = st.procs[m]?
            rw [ihUntouched m hm2, hpr]
          · intro m p0 p1 h0 h1
            have h1a : (retrySpec (allocate_memory st idx).2 rest).1.procs[m]? =
                some p1 := h1
            exact ihFields m p0 p1 (by rw [hpr]; exact h0) h1a
          · intro x h1 h2 h3
            exact ihFresh x (by rw [hal]; exact h1) (by rw [hbl]; exact h2)
              (fun i2 hi2b p2 hp2 => by
                rw [hpr] at hp2
                exact h3 i2 (List.mem_cons_of_mem idx hi2b) p2 hp2)
      | true =>
          obtain ⟨p, blocks2, addr, hp, hb⟩ := allocate_success_shape st idx hflag
          have hs2 := allocate_success_eq st idx p blocks2 addr hp hb
          have hsnd : (allocate_memory st idx).2 =
              { st with
                blocks := blocks2,
                procs := st.procs.set idx
                  { p with allocated := true, allocation_time := st.current_time,
                           memory_address := (addr : Int),
                           remaining_time := p.execution_time,
                           waiting_time := st.current_time - p.arrival_time },
                allocated := st.allocated ++ [p.pid],
                stats := { st.stats with
                  successful_allocations := st.stats.successful_allocations + 1,
                  max_waiting_time :=
                    if st.stats.max_waiting_time < st.current_time - p.arrival_time then
                      st.current_time - p.arrival_time
                    else st.stats.max_waiting_time } } := by
            rw [hs2]
          obtain ⟨hfr1, hfr2⟩ :=
            hg.waiting_fresh idx (List.mem_cons_self idx rest) p hp
          have hpcF : p.completed = false :=
            waiting_not_completed hg (List.mem_cons_self idx rest) hp
          obtain ⟨l1, l2, howners, howners2⟩ := allocBlocks_owners hb
          have hON : (ownersOf st.blocks).Nodup := hg.owners_nodup
          have hpno : p.pid ∉ l1 ++ l2 := by
            rw [← howners]
            exact (ownsBlock_eq_false_iff st.blocks p.pid).mp hfr2
          have hg2 : Good { (allocate_memory st idx).2 with waiting := rest } := by
            rw [hsnd]
            refine ⟨?_, ?_, ?_, ?_, ?_, ?_, ?_, ?_, ?_, ?_⟩
            · intro i hi
              show i < (st.procs.set idx _).length
              rw [List.length_set]
              exact hg.waiting_lt i (List.mem_cons_of_mem idx hi)
            · exact (List.nodup_cons.mp hg.waiting_nodup).2
            · show ((st.procs.set idx
                  { p with allocated := true, allocation_time := st.current_time,
                           memory_address := (addr : Int),
                           remaining_time := p.execution_time,
                           waiting_time := st.current_time - p.arrival_time }).map
                Process.pid).Nodup
              rw [map_pid_set
                (q := { p with allocated := true, allocation_time := st.current_time,
                               memory_address := (addr : Int),
                               remaining_time := p.execution_time,
                               waiting_time := st.current_time - p.arrival_time })
                hp rfl]
              exact hg.pids_nodup
            · show (st.allocated ++ [p.pid]).Nodup
              rw [List.nodup_append_comm]
              exact List.nodup_cons.mpr ⟨hfr1, hg.alloc_nodup⟩
            · show (ownersOf blocks2).Nodup
              rw [howners2, List.nodup_middle]
              exact List.nodup_cons.mpr ⟨hpno, howners ▸ hON⟩
            · intro x hx
              show ownsBlock blocks2 x = true
              rw [ownsBlock_iff, howners2, mem_middle_iff]
              rcases List.mem_append.mp hx with hx2 | hx2
              · refine Or.inr ?_
                rw [← howners]
                exact (ownsBlock_iff st.blocks x).mp (hg.alloc_owns x hx2)
              · exact Or.inl (List.mem_singleton.mp hx2)
            · intro x hx j2 p2 hget2
              by_cases hne : x = p.pid
              · subst hne
                have hsetx : (st.procs.set idx
                    { p with allocated := true, allocation_time := st.current_time,
                             memory_address := (addr : Int),
                             remaining_time := p.execution_time,
                             waiting_time := st.current_time - p.arrival_time })[idx]? =
                    some { p with allocated := true, allocation_time := st.current_time,
                                  memory_address := (addr : Int),
                                  remaining_time := p.execution_time,
                                  waiting_time := st.current_time - p.arrival_time } :=
                  List.getElem?_set_eq_of_lt _ hidxlt
                have hnods : ((st.procs.set idx
                    { p with allocated := true, allocation_time := st.current_time,
                             memory_address := (addr : Int),
                             remaining_time := p.execution_time,
                             waiting_time := st.current_time - p.arrival_time }).map
                    Process.pid).Nodup := by
                  rw [map_pid_set
                    (q := { p with allocated := true, allocation_time := st.current_time,
                                   memory_address := (addr : Int),
                                   remaining_time := p.execution_time,
                                   waiting_time := st.current_time - p.arrival_time })
                    hp rfl]
                  exact hg.pids_nodup
                have hfirst : get_process_by_pid (st.procs.set idx
                    { p with allocated := true, allocation_time := st.current_time,
                             memory_address := (addr : Int),
                             remaining_time := p.execution_time,
                             waiting_time := st.current_time - p.arrival_time }) p.pid =
                    some (idx,
                      { p with allocated := true, allocation_time := st.current_time,
                               memory_address := (addr : Int),
                               remaining_time := p.execution_time,
                               waiting_time := st.current_time - p.arrival_time }) :=
                  get_process_by_pid_first hnods hsetx
                have hget2a : get_process_by_pid (st.procs.set idx
                    { p with allocated := true, allocation_time := st.current_time,
                             memory_address := (addr : Int),
                             remaining_time := p.execution_time,
                             waiting_time := st.current_time - p.arrival_time }) p.pid =
                    some (j2, p2) := hget2
                have heq := hfirst.symm.trans hget2a
                simp only [Option.some.injEq, Prod.mk.injEq] at heq
                obtain ⟨hj2, hp2⟩ := heq
                subst hp2
                show 1 ≤ p.execution_time
                exact hg.exec_pos p (List.getElem?_mem hp)
              · have hget2a : get_process_by_pid (st.procs.set idx
                    { p with allocated := true, allocation_time := st.current_time,
                             memory_address := (addr : Int),
                             remaining_time := p.execution_time,
                             waiting_time := st.current_time - p.arrival_time }) x =
                    some (j2, p2) := hget2
                rw [get_process_by_pid_set_other
                  (q := { p with allocated := true, allocation_time := st.current_time,
                                 memory_address := (addr : Int),
                                 remaining_time := p.execution_time,
                                 waiting_time := st.current_time - p.arrival_time })
                  hp rfl hne] at hget2a
                have hx2 : x ∈ st.allocated := by
                  rcases List.mem_append.mp hx with hA | hA
                  · exact hA
                  · exact absurd (List.mem_singleton.mp hA) hne
                exact hg.alloc_rem x hx2 j2 p2 hget2a
            · intro pc hpc hcc
              have hpcm : pc ∈ st.procs.set idx
                  { p with allocated := true, allocation_time := st.current_time,
                           memory_address := (addr : Int),
                           remaining_time := p.execution_time,
                           waiting_time := st.current_time - p.arrival_time } := hpc
              rcases List.mem_or_eq_of_mem_set hpcm with hmm2 | rfl
              · obtain ⟨h1, h2, h3⟩ := hg.completed_clean pc hmm2 hcc
                have hpcne : p.pid ≠ pc.pid := h3 idx (List.mem_cons_self idx rest) p hp
                refine ⟨?_, ?_, ?_⟩
                · intro hin
                  rcases List.mem_append.mp hin with hA | hA
                  · exact h1 hA
                  · exact hpcne (List.mem_singleton.mp hA).symm
                · show ownsBlock blocks2 pc.pid = false
                  rw [ownsBlock_eq_false_iff, howners2, mem_middle_iff]
                  rintro (he | hin)
                  · exact hpcne he.symm
                  · exact (ownsBlock_eq_false_iff st.blocks pc.pid).mp h2
                      (by rw [howners]; exact hin)
                · intro i hi q2 hq2
                  have hine : ¬ (idx = i) := fun he => hidxnotin (by rw [he]; exact hi)
                  have hq2a : (st.procs.set idx
                      { p with allocated := true, allocation_time := st.current_time,
                               memory_address := (addr : Int),
                               remaining_time := p.execution_time,
                               waiting_time := st.current_time - p.arrival_time })[i]? =
                      some q2 := hq2
                  rw [List.getElem?_set_ne hine] at hq2a
                  exact h3 i (List.mem_cons_of_mem idx hi) q2 hq2a
              · exact Bool.noConfusion (hpcF.symm.trans hcc)
            · intro i hi q2 hq2
              have hine : ¬ (idx = i) := fun he => hidxnotin (by rw [he]; exact hi)
              have hq2a : (st.procs.set idx
                  { p with allocated := true, allocation_time := st.current_time,
                           memory_address := (addr : Int),
                           remaining_time := p.execution_time,
                           waiting_time := st.current_time - p.arrival_time })[i]? =
                  some q2 := hq2
              rw [List.getElem?_set_ne hine] at hq2a
              obtain ⟨hf1, hf2⟩ := hg.waiting_fresh i (List.mem_cons_of_mem idx hi) q2 hq2a
              have hqne : q2.pid ≠ p.pid :=
                pids_nodup_ne hg.pids_nodup
                  (fun he => hidxnotin (by rw [← he]; exact hi)) hq2a hp
              refine ⟨?_, ?_⟩
              · intro hin
                rcases List.mem_append.mp hin with hA | hA
                · exact hf1 hA
                · exact hqne (List.mem_singleton.mp hA)
              · show ownsBlock blocks2 q2.pid = false
                rw [ownsBlock_eq_false_iff, howners2, mem_middle_iff]
                rintro (he | hin)
                · exact hqne he
                · exact (ownsBlock_eq_false_iff st.blocks q2.pid).mp hf2
                    (by rw [howners]; exact hin)
            · intro pc hpc
              have hpcm : pc ∈ st.procs.set idx
                  { p with allocated := true, allocation_time := st.current_time,
                           memory_address := (addr : Int),
                           remaining_time := p.execution_time,
                           waiting_time := st.current_time - p.arrival_time } := hpc
              rcases List.mem_or_eq_of_mem_set hpcm with hmm2 | rfl
              · exact hg.exec_pos pc hmm2
              · show 1 ≤ p.execution_time
                exact hg.exec_pos p (List.getElem?_mem hp)
          obtain ⟨ihGood, ihEvol, ihSub, ihLen, ihUntouched, ihFields, ihFresh⟩ :=
            ih (allocate_memory st idx).2 hg2
          have hred : retrySpec st (idx :: rest) =
              ((retrySpec (allocate_memory st idx).2 rest).1,
               (retrySpec (allocate_memory st idx).2 rest).2.1,
               (retrySpec (allocate_memory st idx).2 rest).2.2 + 1) := by
            rw [retrySpec_cons, if_pos hflag]
          rw [hred]
          have hsprocs : (allocate_memory st idx).2.procs = st.procs.set idx
              { p with allocated := true, allocation_time := st.current_time,
                       memory_address := (addr : Int),
                       remaining_time := p.execution_time,
                       waiting_time := st.current_time - p.arrival_time } := by
            rw [hsnd]
          have hsalloc : (allocate_memory st idx).2.allocated =
              st.allocated ++ [p.pid] := by
            rw [hsnd]
          have hsblocks : (allocate_memory st idx).2.blocks = blocks2 := by
            rw [hsnd]
          have hstep : ProcsEvol st.procs (allocate_memory st idx).2.procs := by
            rw [hsprocs]
            exact ProcsEvol_set hp hpcF rfl rfl rfl
              (fun hc => Bool.noConfusion (hpcF.symm.trans hc))
          refine ⟨ihGood, ProcsEvol_trans hstep ihEvol, List.Sublist.cons idx ihSub,
            ?_, ?_, ?_, ?_⟩
          · show (retrySpec (allocate_memory st idx).2 rest).1.procs.length =
              st.procs.length
            rw [ihLen, hsprocs, List.length_set]
          · intro m hm
            have hm1 : ¬ (m = idx) := fun hx => hm (List.mem_cons.mpr (Or.inl hx))
            have hm2 : m ∉ rest := fun hin => hm (List.mem_cons_of_mem idx hin)
            show (retrySpec (allocate_memory st idx).2 rest).1.procs[m]? = st.procs[m]?
            rw [ihUntouched m hm2, hsprocs,
              List.getElem?_set_ne (fun hx => hm1 hx.symm)]
          · intro m p0 p1 h0 h1
            have h1a : (retrySpec (allocate_memory st idx).2 rest).1.procs[m]? =
                some p1 := h1
            by_cases hm : m = idx
            · rw [hm, hp] at h0
              cases h0
              have hmid : (allocate_memory st idx).2.procs[m]? =
                  some { p with allocated := true, allocation_time := st.current_time,
                                memory_address := (addr : Int),
                                remaining_time := p.execution_time,
                                waiting_time := st.current_time - p.arrival_time } := by
                rw [hm, hsprocs]
                exact List.getElem?_set_eq_of_lt _ hidxlt
              obtain ⟨ha1, ha2, ha3, ha4⟩ := ihFields m _ p1 hmid h1a
              exact ⟨ha1, ha2, ha3, ha4⟩
            · have hmid : (allocate_memory st idx).2.procs[m]? = some p0 := by
                rw [hsprocs, List.getElem?_set_ne (fun hx => hm hx.symm)]
                exact h0
              exact ihFields m p0 p1 hmid h1a
          · intro x h1 h2 h3
            have hxp : p.pid ≠ x := h3 idx (List.mem_cons_self idx rest) p hp
            refine ihFresh x ?_ ?_ ?_
            · rw [hsalloc]
              intro hin
              rcases List.mem_append.mp hin with hA | hA
              · exact h1 hA
              · exact hxp (List.mem_singleton.mp hA).symm
            · rw [hsblocks]
              rw [ownsBlock_eq_false_iff, howners2, mem_middle_iff]
              rintro (he | hin)
              · exact hxp he.symm
              · exact (ownsBlock_eq_false_iff st.blocks x).mp h2
                  (by rw [howners]; exact hin)
            · intro i hi p2 hp2
              rw [hsprocs] at hp2
              have hine : ¬ (idx = i) := fun he => hidxnotin (by rw [he]; exact hi)
              rw [List.getElem?_set_ne hine] at hp2
              exact h3 i (List.mem_cons_of_mem idx hi) p2 hp2

theorem check_waiting_eq (st : SimState) :
    check_waiting_processes st =
      if st.waiting.length == 0 then st
      else { (retrySpec st st.waiting).1 with
             waiting := (retrySpec st st.waiting).2.1 } := by
  unfold check_waiting_processes
  split
  · rfl
  · have h := checkWaitingAux_eq_retrySpec (st.waiting.length + 1) st st.waiting 0 0
      (by omega)
    simp only [h, List.take_zero, List.drop_zero, List.nil_append]

theorem check_waiting_processes_good (st : SimState) (hg : Good st) :
    Good (check_waiting_processes st) ∧
    ProcsEvol st.procs (check_waiting_processes st).procs := by
  rw [check_waiting_eq]
  split
  · exact ⟨hg, ProcsEvol_refl _⟩
  · obtain ⟨hgood, hevol, _⟩ := retrySpec_good st.waiting st hg
    exact ⟨hgood, hevol⟩

theorem calculate_memory_utilization_good (st : SimState) (hg : Good st) :
    Good (calculate_memory_utilization st) ∧
    ProcsEvol st.procs (calculate_memory_utilization st).procs :=
  ⟨Good.congr hg rfl rfl rfl rfl, ProcsEvol_refl st.procs⟩

theorem simulate_time_step_good (st : SimState) (hg : Good st) :
    Good (simulate_time_step st) ∧
    ProcsEvol st.procs (simulate_time_step st).procs := by
  have hg1 : Good { st with current_time := st.current_time + 1 } :=
    Good.congr hg rfl rfl rfl rfl
  obtain ⟨hg2, he2⟩ := check_process_completion_good _ hg1
  obtain ⟨hg3, he3⟩ := check_waiting_processes_good _ hg2
  obtain ⟨hg4, he4⟩ := calculate_memory_utilization_good _ hg3
  exact ⟨hg4, ProcsEvol_trans (ProcsEvol_trans he2 he3) he4⟩

theorem tickIter_good : ∀ (k : Nat) (st : SimState), Good st → Good (tickIter k st) := by
  intro k
  induction k with
  | zero => intro st hg; exact hg
  | succ k ih => intro st hg; exact ih _ (simulate_time_step_good st hg).1

theorem tickIter_succ : ∀ (k : Nat) (st : SimState),
    tickIter (k + 1) st = simulate_time_step (tickIter k st) := by
  intro k
  induction k with
  | zero => intro st; rfl
  | succ k ih =>
      intro st
      show tickIter (k + 1) (simulate_time_step st) = _
      rw [ih (simulate_time_step st)]
      rfl

/-- A sample registry entry used to witness the reachability hypothesis. -/
def egProc : Process :=
  { pid := 1, size := 10, arrival_time := 0, allocated := false, allocation_time := -1,
    memory_address := -1, waiting_time := 0, execution_time := 3, remaining_time := 3,
    completed := false }

theorem good_init_eg : Good (init_memory 100 [egProc]) := by
  refine ⟨?_, ?_, ?_, ?_, ?_, ?_, ?_, ?_, ?_, ?_⟩
  · intro i hi
    cases hi
  · exact List.nodup_nil
  · exact List.nodup_singleton _
  · exact List.nodup_nil
  · exact List.nodup_nil
  · intro pid h
    cases h
  · intro pid h
    cases h
  · intro p hp hc
    have hp2 : p ∈ [egProc] := hp
    rw [List.mem_singleton] at hp2
    subst hp2
    exact Bool.noConfusion hc
  · intro i hi
    cases hi
  · intro p hp
    have hp2 : p ∈ [egProc] := hp
    rw [List.mem_singleton] at hp2
    subst hp2
    decide

/-- **C9** (src/test.c `check_process_completion` lines 348-370 and
`deallocate_memory` lines 250-294): starting from any reachable state
satisfying the invariant `Good`, every number of clock ticks keeps the
invariant, and across each further tick the registry evolves so that a
process record that turns `completed` does so exactly when its
remaining time is `0` (never earlier), while an already-completed
record is frozen forever; moreover a completed process owns no memory
block, is absent from `allocated_processes[]`, and a further
deallocation of its pid is a no-op — its region is never freed a
second time. -/
theorem c9_completion_discipline (st : SimState) (hg : Good st) (k : Nat) :
    Good (tickIter k st) ∧
    ProcsEvol (tickIter k st).procs (tickIter (k + 1) st).procs ∧
    ∀ p ∈ (tickIter k st).procs, p.completed = true →
      p.pid ∉ (tickIter k st).allocated ∧
      ownsBlock (tickIter k st).blocks p.pid = false ∧
      deallocate_memory (tickIter k st) p.pid = tickIter k st := by
  have hgk : Good (tickIter k st) := tickIter_good k st hg
  refine ⟨hgk, ?_, ?_⟩
  · rw [tickIter_succ]
    exact (simulate_time_step_good _ hgk).2
  · intro p hp hc
    obtain ⟨h1, h2, _⟩ := hgk.completed_clean p hp hc
    exact ⟨h1, h2, deallocate_noop h2⟩

/-- Witness for C9: the invariant hypothesis holds for an initialized
1-process pool, and the theorem applies to it at `k = 1`. -/
theorem c9_completion_discipline_witness :
    Good (init_memory 100 [egProc]) ∧
    (Good (tickIter 1 (init_memory 100 [egProc])) ∧
     ProcsEvol (tickIter 1 (init_memory 100 [egProc])).procs
       (tickIter (1 + 1) (init_memory 100 [egProc])).procs ∧
     ∀ p ∈ (tickIter 1 (init_memory 100 [egProc])).procs, p.completed = true →
       p.pid ∉ (tickIter 1 (init_memory 100 [egProc])).allocated ∧
       ownsBlock (tickIter 1 (init_memory 100 [egProc])).blocks p.pid = false ∧
       deallocate_memory (tickIter 1 (init_memory 100 [egProc])) p.pid =
         tickIter 1 (init_memory 100 [egProc])) :=
  ⟨good_init_eg, c9_completion_discipline (init_memory 100 [egProc]) good_init_eg 1⟩

end OelOS
